import Mathlib

/-!
Verification of the dok reconciliation core against its source.

Shallow embedding of:
- src/src/core/types.ts        (DocumentMetadata, getDocumentId, parseDocumentId,
                                SyncOperation, SyncPlan)
- src/src/core/planner.ts      (Planner.plan)
- src/src/core/reconciler.ts   (Reconciler.execute, processOperationsBatch,
                                processOperation)
- src/src/core/engine.ts       (ETLEngine.run)
- src/utils/tempfile.ts        (TempFileManagerImpl cleanup semantics)

JS Date values are modelled as Int epoch timestamps; Date comparison in the
source is numeric comparison, and Date.toISOString is modelled by the decimal
rendering of the timestamp (injective, structure preserving for every claim).
JS Map is modelled as an association list with Map insertion-order semantics:
set keeps the position of an existing key, get finds the unique entry, delete
removes the entry of the key (keys are unique by construction, so removing
every entry with the key is the same operation).
-/

inductive SyncOperationType
  | create
  | update
  | delete
  | skip
deriving DecidableEq

structure DocumentMetadata where
  providerId : String
  sourceId : String
  title : String
  lastModified : Int
  fileExtension : Option String := none
deriving DecidableEq

/-- Source types.ts: getDocumentId composes providerId and sourceId with a colon. -/
def getDocumentId (metadata : DocumentMetadata) : String :=
  metadata.providerId ++ (":") ++ metadata.sourceId

/-- Model of the JS string split on a one-character separator, on char lists.
JS id.split on a separator yields every field, empty fields included. -/
def splitChar (sep : Char) : List Char → List (List Char)
  | [] => [[]]
  | c :: rest =>
    match splitChar sep rest with
    | [] => [[]]
    | h :: t => if c = sep then [] :: h :: t else (c :: h) :: t

/-- Model of the JS Array.join on a one-character separator, on char lists. -/
def joinChar (sep : Char) : List (List Char) → List Char
  | [] => []
  | [x] => x
  | x :: xs => x ++ sep :: joinChar sep xs

/-- Source types.ts: parseDocumentId splits the id on the colon, takes the first
field as providerId and rejoins the remaining fields with colons as sourceId. -/
def parseDocumentId (id : String) : String × String :=
  match splitChar ':' id.data with
  | [] => (String.mk [], String.mk [])
  | h :: t => (String.mk h, String.mk (joinChar ':' t))

structure SyncOperation where
  type : SyncOperationType
  documentMetadata : DocumentMetadata
  reason : String
deriving DecidableEq

structure SyncSummary where
  total : Nat
  create : Nat
  update : Nat
  delete : Nat
  skip : Nat
deriving DecidableEq

structure SyncPlan where
  operations : List SyncOperation
  summary : SyncSummary
deriving DecidableEq

namespace Planner

/-- Model of Date.toISOString used inside the update reason string: the decimal
rendering of the epoch timestamp. -/
def isoString (t : Int) : String := toString t

def createReason : String := "Document does not exist in target"

def skipReason : String := "Document is up to date"

def deleteReason : String := "Document no longer exists in source"

def updateReason (s t : DocumentMetadata) : String :=
  ("Source modified at ") ++ isoString s.lastModified ++
    (" is newer than target modified at ") ++ isoString t.lastModified

def mkCreate (s : DocumentMetadata) : SyncOperation :=
  { type := .create, documentMetadata := s, reason := createReason }

def mkUpdate (s t : DocumentMetadata) : SyncOperation :=
  { type := .update, documentMetadata := s, reason := updateReason s t }

def mkSkip (s : DocumentMetadata) : SyncOperation :=
  { type := .skip, documentMetadata := s, reason := skipReason }

def mkDelete (t : DocumentMetadata) : SyncOperation :=
  { type := .delete, documentMetadata := t, reason := deleteReason }

/-- JS Map.set: replace in place when the key exists, append otherwise. -/
def mapSet (m : List (String × DocumentMetadata)) (k : String) (v : DocumentMetadata) :
    List (String × DocumentMetadata) :=
  match m with
  | [] => [(k, v)]
  | e :: rest => if e.fst = k then (k, v) :: rest else e :: mapSet rest k v

/-- JS Map.get. -/
def mapGet (m : List (String × DocumentMetadata)) (k : String) : Option DocumentMetadata :=
  match m with
  | [] => none
  | e :: rest => if e.fst = k then some e.snd else mapGet rest k

/-- JS Map.delete: the map keeps its keys unique, so this removes the one entry
of the key when present. -/
def mapDelete (m : List (String × DocumentMetadata)) (k : String) :
    List (String × DocumentMetadata) :=
  m.filter (fun e => !(e.fst == k))

/-- Source planner.ts: the first loop builds the target map with Map.set. -/
def buildTargetMap (targetMetadata : List DocumentMetadata) :
    List (String × DocumentMetadata) :=
  targetMetadata.foldl (fun m t => mapSet m (getDocumentId t) t) []

/-- Source planner.ts, body of the second loop: look the source up in the target
map; absent gives create, strictly newer source gives update, otherwise skip. -/
def classifySource (m : List (String × DocumentMetadata)) (s : DocumentMetadata) :
    SyncOperation :=
  match mapGet m (getDocumentId s) with
  | none => mkCreate s
  | some t => if t.lastModified < s.lastModified then mkUpdate s t else mkSkip s

/-- Source planner.ts, second loop: one operation per source entry in order; the
processed id is removed from the target map after every entry. -/
def planSources (m : List (String × DocumentMetadata)) :
    List DocumentMetadata → List SyncOperation
  | [] => []
  | s :: rest => classifySource m s :: planSources (mapDelete m (getDocumentId s)) rest

/-- The target map left over after the second loop of planner.ts. -/
def remainingAfter (m : List (String × DocumentMetadata)) :
    List DocumentMetadata → List (String × DocumentMetadata)
  | [] => m
  | s :: rest => remainingAfter (mapDelete m (getDocumentId s)) rest

def countType (ops : List SyncOperation) (ty : SyncOperationType) : Nat :=
  (ops.filter (fun op => decide (op.type = ty))).length

/-- Source planner.ts: Planner.plan. -/
def plan (sourceMetadata targetMetadata : List DocumentMetadata) : SyncPlan :=
  let targetMap := buildTargetMap targetMetadata
  let srcOps := planSources targetMap sourceMetadata
  let deleteOps := (remainingAfter targetMap sourceMetadata).map (fun e => mkDelete e.snd)
  let operations := srcOps ++ deleteOps
  { operations := operations
    summary :=
      { total := operations.length
        create := countType operations .create
        update := countType operations .update
        delete := countType operations .delete
        skip := countType operations .skip } }

/-- Specification-side classification of one source document against the target
list, used to state theorems about plan; defined through find? on the list, not
through the map. -/
def classify (targets : List DocumentMetadata) (s : DocumentMetadata) : SyncOperation :=
  match targets.find? (fun t => getDocumentId t == getDocumentId s) with
  | none => mkCreate s
  | some t => if t.lastModified < s.lastModified then mkUpdate s t else mkSkip s

end Planner

namespace Reconciler

/-- Behavior of the connectors during one run: the outcome of every remote
call the Reconciler can make. Download is keyed by DocumentId (the code calls
the source provider resolved from the documentMetadata providerId and a
successful download returns the path of the staged file the provider wrote);
create and update take the document metadata and the staged file path like
createDocumentFromFile and updateDocumentFromFile; delete takes the
DocumentId. An error value is the message of the thrown exception. -/
structure ConnectorEnv where
  download : String → Except String String
  createDoc : DocumentMetadata → String → Except String Unit
  updateDoc : DocumentMetadata → String → Except String Unit
  deleteDoc : String → Except String Unit

/-- Construction data of a Reconciler: the source provider configs as
providerId-to-provider-kind pairs in map insertion order, the kinds present in
the providerConstructors map, and the dryRun option. -/
structure Setup where
  sourceProviderConfigs : List (String × String)
  registeredKinds : List String
  dryRun : Bool

/-- Observable events of one Reconciler run, in order: temp directory creation
by the TempFileManagerImpl constructor, the per-operation processing log, the
skip log, connector calls, staged files written by providers during downloads,
the inter-batch delay, and the final cleanup of the temp directory. -/
inductive Ev
  | tempDirCreated
  | logSkip (docId : String) (reason : String)
  | attempt (ty : SyncOperationType) (docId : String) (reason : String)
  | downloadCall (docId : String)
  | stagedFile (path : String)
  | createCall (docId : String) (path : String)
  | updateCall (docId : String) (path : String)
  | deleteCall (docId : String)
  | delay (ms : Nat)
  | cleanup
deriving DecidableEq

/-- Source reconciler.ts, provider construction loop of execute: for each
config in map order, look the constructor up by the provider kind; a missing
kind throws immediately; otherwise the provider is registered under its
providerId. -/
def buildProvidersList (registeredKinds : List String) :
    List (String × String) → Except String (List String)
  | [] => .ok []
  | (pid, kind) :: rest =>
    if registeredKinds.contains kind then
      match buildProvidersList registeredKinds rest with
      | .ok pids => .ok (pid :: pids)
      | .error e => .error e
    else .error (("Provider constructor not found: ") ++ kind)

def buildProviders (setup : Setup) : Except String (List String) :=
  buildProvidersList setup.registeredKinds setup.sourceProviderConfigs

/-- Source reconciler.ts line 147: the fixed batch size. -/
def batchSize : Nat := 5

/-- Source reconciler.ts line 189: the fixed inter-batch delay in ms. -/
def batchDelayMs : Nat := 100

/-- Source reconciler.ts: processOperation. Every entry logs the operation with
its type, DocumentId and reason; in dry-run mode it returns before any
connector call; otherwise create and update resolve the source provider (a
missing providerId throws, caught per operation), download the content to a
staged file and pass the path to the target connector; delete calls the target
connector with the DocumentId. The skip arm mirrors the TS switch, which has
no skip case and returns normally. -/
def processOperation (env : ConnectorEnv) (providers : List String) (dryRun : Bool)
    (operation : SyncOperation) (operationType : SyncOperationType) :
    List Ev × Except String Unit :=
  let docId := getDocumentId operation.documentMetadata
  let logEv := Ev.attempt operationType docId operation.reason
  if dryRun then ([logEv], .ok ())
  else
    match operationType with
    | .create | .update =>
      if providers.contains operation.documentMetadata.providerId then
        match env.download docId with
        | .error e => ([logEv, .downloadCall docId], .error e)
        | .ok path =>
          let callEv := if operationType = SyncOperationType.create then
              Ev.createCall docId path
            else Ev.updateCall docId path
          let callRes := if operationType = SyncOperationType.create then
              env.createDoc operation.documentMetadata path
            else env.updateDoc operation.documentMetadata path
          ([logEv, .downloadCall docId, .stagedFile path, callEv], callRes)
      else
        ([logEv], .error (("Source provider not found: ")
          ++ operation.documentMetadata.providerId))
    | .delete => ([logEv, .deleteCall docId], env.deleteDoc docId)
    | .skip => ([logEv], .ok ())

/-- One batch: all operations are started and settled together; the model
serializes the concurrent operations in batch order, which every property
stated here is invariant under; rejected operations are collected with their
messages in batch order like the allSettled result loop. -/
def runBatch (env : ConnectorEnv) (providers : List String) (dryRun : Bool)
    (ty : SyncOperationType) : List SyncOperation → List Ev × List (SyncOperation × String)
  | [] => ([], [])
  | op :: rest =>
    let r := processOperation env providers dryRun op ty
    let r2 := runBatch env providers dryRun ty rest
    (r.1 ++ r2.1,
      (match r.2 with
        | .error e => [(op, e)]
        | .ok _ => []) ++ r2.2)

/-- Source reconciler.ts: processOperationsBatch. Slices of batchSize are
processed in order; after each batch except the last a fixed delay runs. -/
def processOperationsBatch (env : ConnectorEnv) (providers : List String)
    (dryRun : Bool) (ty : SyncOperationType) :
    List SyncOperation → List Ev × List (SyncOperation × String)
  | [] => ([], [])
  | op :: rest0 =>
    let batch := (op :: rest0).take batchSize
    let rest := (op :: rest0).drop batchSize
    let b := runBatch env providers dryRun ty batch
    let r := processOperationsBatch env providers dryRun ty rest
    (b.1 ++ (if rest.isEmpty then [] else [Ev.delay batchDelayMs]) ++ r.1,
      b.2 ++ r.2)
  termination_by l => l.length
  decreasing_by simp [batchSize]; omega

/-- The batches of a group: slices of batchSize in order, last one possibly
shorter; a specification-side restatement of the slicing loop. -/
def chunked : List SyncOperation → List (List SyncOperation)
  | [] => []
  | op :: rest0 =>
    (op :: rest0).take batchSize :: chunked ((op :: rest0).drop batchSize)
  termination_by l => l.length
  decreasing_by simp [batchSize]; omega

/-- Batch event blocks joined with exactly one fixed delay between consecutive
blocks. -/
def interDelay : List (List Ev) → List Ev
  | [] => []
  | [b] => b
  | b :: bs => b ++ Ev.delay batchDelayMs :: interDelay bs

def typeName : SyncOperationType → String
  | .create => "create"
  | .update => "update"
  | .delete => "delete"
  | .skip => "skip"

/-- Source reconciler.ts line 130: one line of the aggregate error text. -/
def failureLine (p : SyncOperation × String) : String :=
  typeName p.1.type ++ (" ") ++ getDocumentId p.1.documentMetadata ++ (": ") ++ p.2

/-- JS Array.join with a newline separator. -/
def joinLines : List String → String
  | [] => ""
  | [l] => l
  | l :: ls => l ++ ("\n") ++ joinLines ls

/-- Source reconciler.ts lines 127 to 136: the aggregate error message. -/
def aggregateMessage (errs : List (SyncOperation × String)) : String :=
  ("Reconciliation partially failed with ") ++ toString errs.length
    ++ (" errors:\n") ++ joinLines (errs.map failureLine)

/-- Source reconciler.ts: execute. The temp directory is created first, the
providers are instantiated (a missing constructor throws out of the try block),
operations are grouped by type, skips are logged, the three mutation groups run
in batches with their errors collected, the run throws the aggregate error
exactly when the error list is not empty, and the finally block removes the
temp directory on every exit path. The delete group is processed without the
provider map in the source, which its branch never reads, so the model passes
the same providers. -/
def execute (setup : Setup) (env : ConnectorEnv) (plan : SyncPlan) :
    List Ev × Except String Unit :=
  let body : List Ev × Except String Unit :=
    match buildProviders setup with
    | .error e => ([], .error e)
    | .ok providers =>
      let createOps := plan.operations.filter
        (fun op => decide (op.type = SyncOperationType.create))
      let updateOps := plan.operations.filter
        (fun op => decide (op.type = SyncOperationType.update))
      let deleteOps := plan.operations.filter
        (fun op => decide (op.type = SyncOperationType.delete))
      let skipOps := plan.operations.filter
        (fun op => decide (op.type = SyncOperationType.skip))
      let skipEvs := skipOps.map
        (fun op => Ev.logSkip (getDocumentId op.documentMetadata) op.reason)
      let c := processOperationsBatch env providers setup.dryRun .create createOps
      let u := processOperationsBatch env providers setup.dryRun .update updateOps
      let d := processOperationsBatch env providers setup.dryRun .delete deleteOps
      let errs := c.2 ++ u.2 ++ d.2
      let evs := skipEvs ++ c.1 ++ u.1 ++ d.1
      if errs.isEmpty then (evs, .ok ()) else (evs, .error (aggregateMessage errs))
  (Ev.tempDirCreated :: body.1 ++ [Ev.cleanup], body.2)

/-- Specification-side failure list: the operations of the three mutation
groups whose individual processing fails, with their messages, in group order,
defined without the batch machinery. -/
def groupFailures (env : ConnectorEnv) (providers : List String) (dryRun : Bool)
    (ty : SyncOperationType) (ops : List SyncOperation) :
    List (SyncOperation × String) :=
  ops.filterMap (fun op =>
    match (processOperation env providers dryRun op ty).2 with
    | .error e => some (op, e)
    | .ok _ => none)

def specFailures (env : ConnectorEnv) (providers : List String) (dryRun : Bool)
    (plan : SyncPlan) : List (SyncOperation × String) :=
  groupFailures env providers dryRun .create
      (plan.operations.filter (fun op => decide (op.type = SyncOperationType.create)))
    ++ groupFailures env providers dryRun .update
      (plan.operations.filter (fun op => decide (op.type = SyncOperationType.update)))
    ++ groupFailures env providers dryRun .delete
      (plan.operations.filter (fun op => decide (op.type = SyncOperationType.delete)))

/-- Whether an event is a connector method invocation. -/
def isConnectorCall : Ev → Bool
  | .downloadCall _ => true
  | .createCall _ _ => true
  | .updateCall _ _ => true
  | .deleteCall _ => true
  | _ => false

end Reconciler

/-- Staging area state on disk: whether the per-run temp directory exists and
which staged files it holds. tempDirCreated is mkdtempSync in the
TempFileManagerImpl constructor; a staged file is written inside the temp
directory by a provider during a download; cleanup is the recursive forced rm
of the directory in TempFileManagerImpl.cleanup. -/
structure StagingFS where
  tempDirExists : Bool
  files : List String
deriving DecidableEq

def applyEvent (fs : StagingFS) : Reconciler.Ev → StagingFS
  | .tempDirCreated => { fs with tempDirExists := true }
  | .stagedFile p => { fs with files := p :: fs.files }
  | .cleanup => { tempDirExists := false, files := [] }
  | _ => fs

def applyEvents (fs : StagingFS) (evs : List Reconciler.Ev) : StagingFS :=
  evs.foldl applyEvent fs

namespace ETLEngine

/-- One configured target connector as the Engine observes it: the outcome of
its metadata fetch and the outcome of the dedicated Reconciler run on a given
plan. -/
structure TargetSpec where
  fetchMeta : Except String (List DocumentMetadata)
  execResult : SyncPlan → Except String Unit

/-- Engine-level events: the source fetch and, per target index, the target
metadata fetch, the plan construction, and the start of the Reconciler run. -/
inductive EngEv
  | sourceFetched
  | targetFetched (i : Nat)
  | planBuilt (i : Nat)
  | execStarted (i : Nat)
deriving DecidableEq

/-- Modelled from the spec: createSyncPlan. engine.ts imports it from
src/src/core/createSyncPlan, a module absent from the source tree; section 4.1
of the specification gives its algorithm, which is the planner algorithm of
planner.ts, so it is Planner.plan. -/
def createSyncPlan (sourceMetadata targetMetadata : List DocumentMetadata) : SyncPlan :=
  Planner.plan sourceMetadata targetMetadata

/-- Source engine.ts lines 45 to 69: the per-target loop of run. Each target is
awaited in order with no catch, so the first failing fetch or Reconciler run
aborts the loop and propagates. -/
def runTargets (src : List DocumentMetadata) :
    List TargetSpec → Nat → List EngEv × Except String Unit
  | [], _ => ([], .ok ())
  | t :: rest, i =>
    match t.fetchMeta with
    | .error e => ([], .error e)
    | .ok tmeta =>
      let plan := createSyncPlan src tmeta
      let evs := [EngEv.targetFetched i, EngEv.planBuilt i, EngEv.execStarted i]
      match t.execResult plan with
      | .error e => (evs, .error e)
      | .ok _ =>
        let r := runTargets src rest (i + 1)
        (evs ++ r.1, r.2)

/-- Source engine.ts: ETLEngine.run. The source metadata is fetched once; a
fetch failure propagates; then the targets are processed sequentially. -/
def run (sourceFetch : Except String (List DocumentMetadata))
    (targets : List TargetSpec) : List EngEv × Except String Unit :=
  match sourceFetch with
  | .error e => ([], .error e)
  | .ok src =>
    let r := runTargets src targets 0
    (EngEv.sourceFetched :: r.1, r.2)

/-- One target step succeeds when its fetch succeeds and the Reconciler run on
the plan built from the shared source metadata succeeds. -/
def stepOk (src : List DocumentMetadata) (t : TargetSpec) : Bool :=
  match t.fetchMeta with
  | .error _ => false
  | .ok m =>
    match t.execResult (createSyncPlan src m) with
    | .ok _ => true
    | .error _ => false

end ETLEngine


theorem splitChar_ne_nil (sep : Char) (l : List Char) : splitChar sep l ≠ [] := by
  cases l with
  | nil => simp [splitChar]
  | cons c rest =>
    simp only [splitChar]
    rcases h : splitChar sep rest with _ | ⟨h₁, t₁⟩
    · simp
    · by_cases hc : c = sep <;> simp [hc]

theorem splitChar_append (sep : Char) (p s : List Char) (hp : sep ∉ p) :
    splitChar sep (p ++ sep :: s) = p :: splitChar sep s := by
  induction p with
  | nil =>
    simp only [List.nil_append, splitChar]
    rcases h : splitChar sep s with _ | ⟨h₁, t₁⟩
    · exact absurd h (splitChar_ne_nil sep s)
    · simp
  | cons c p ih =>
    have hc : c ≠ sep := by
      intro hcs; exact hp (by simp [hcs])
    have hp' : sep ∉ p := fun hmem => hp (by simp [hmem])
    show splitChar sep (c :: (p ++ sep :: s)) = (c :: p) :: splitChar sep s
    simp only [splitChar, ih hp', if_neg hc]

theorem joinChar_splitChar (sep : Char) (s : List Char) :
    joinChar sep (splitChar sep s) = s := by
  induction s with
  | nil => rfl
  | cons c rest ih =>
    rcases h : splitChar sep rest with _ | ⟨h₁, t₁⟩
    · exact absurd h (splitChar_ne_nil sep rest)
    · rw [h] at ih
      by_cases hc : c = sep
      · rw [hc]
        have hs : splitChar sep (sep :: rest) = [] :: h₁ :: t₁ := by
          simp [splitChar, h]
        rw [hs]
        simp only [joinChar, List.nil_append]
        rw [ih]
      · have hs : splitChar sep (c :: rest) = (c :: h₁) :: t₁ := by
          simp only [splitChar, h, if_neg hc]
        rw [hs]
        cases t₁ with
        | nil =>
          simp only [joinChar] at ih ⊢
          rw [ih]
        | cons x xs =>
          simp only [joinChar, List.cons_append] at ih ⊢
          rw [ih]

theorem string_mk_data (s : String) : String.mk s.data = s := rfl

/-- C4: for a providerId that contains no colon, parsing the composed DocumentId
recovers the original providerId and sourceId verbatim, also when the sourceId
itself contains colons: parsing splits on the first delimiter only. -/
theorem parse_getDocumentId_roundtrip (m : DocumentMetadata)
    (h : (':') ∉ m.providerId.data) :
    parseDocumentId (getDocumentId m) = (m.providerId, m.sourceId) := by
  have hdata : (getDocumentId m).data =
      m.providerId.data ++ (':') :: m.sourceId.data := by
    simp [getDocumentId, String.data_append]
  unfold parseDocumentId
  rw [hdata, splitChar_append (':') _ _ h]
  simp only []
  rw [joinChar_splitChar]

/-- Witness for C4 at the example of the specification: providerId github,
sourceId dir/file:v1.md. -/
theorem parse_getDocumentId_roundtrip_witness :
    parseDocumentId (getDocumentId
      { providerId := "github", sourceId := "dir/file:v1.md", title := "T",
        lastModified := 0, fileExtension := none }) = ("github", "dir/file:v1.md") :=
  parse_getDocumentId_roundtrip _ (by decide)

theorem countType_partition (l : List SyncOperation) :
    l.length = Planner.countType l .create + Planner.countType l .update +
      Planner.countType l .delete + Planner.countType l .skip := by
  induction l with
  | nil => rfl
  | cons op rest ih =>
    rcases op with ⟨ty, dm, r⟩
    cases ty <;> simp [Planner.countType, List.filter_cons] at ih ⊢ <;> omega

/-- C5: the summary of every plan is consistent: total equals the number of
operations, equals the sum of the four per-type counts, and each per-type count
is the number of operations of that type; the empty plan is empty with an
all-zero summary. -/
theorem planner_summary_consistent (sources targets : List DocumentMetadata) :
    (Planner.plan sources targets).summary.total
        = (Planner.plan sources targets).operations.length ∧
    (Planner.plan sources targets).summary.total
        = (Planner.plan sources targets).summary.create
          + (Planner.plan sources targets).summary.update
          + (Planner.plan sources targets).summary.delete
          + (Planner.plan sources targets).summary.skip ∧
    (Planner.plan sources targets).summary.create
        = ((Planner.plan sources targets).operations.filter
            (fun op => decide (op.type = .create))).length ∧
    (Planner.plan sources targets).summary.update
        = ((Planner.plan sources targets).operations.filter
            (fun op => decide (op.type = .update))).length ∧
    (Planner.plan sources targets).summary.delete
        = ((Planner.plan sources targets).operations.filter
            (fun op => decide (op.type = .delete))).length ∧
    (Planner.plan sources targets).summary.skip
        = ((Planner.plan sources targets).operations.filter
            (fun op => decide (op.type = .skip))).length ∧
    (Planner.plan [] []).operations = [] ∧
    (Planner.plan [] []).summary = ⟨0, 0, 0, 0, 0⟩ := by
  refine ⟨rfl, ?_, rfl, rfl, rfl, rfl, rfl, rfl⟩
  exact countType_partition _

theorem mapSet_absent (m : List (String × DocumentMetadata)) (k : String)
    (v : DocumentMetadata) (hk : ∀ e ∈ m, e.fst ≠ k) :
    Planner.mapSet m k v = m ++ [(k, v)] := by
  induction m with
  | nil => rfl
  | cons e rest ih =>
    have he : e.fst ≠ k := hk e (by simp)
    simp only [Planner.mapSet, if_neg he, List.cons_append, List.cons.injEq, true_and]
    exact ih (fun e' he' => hk e' (by simp [he']))

theorem foldl_mapSet (ts : List DocumentMetadata) :
    ∀ acc : List (String × DocumentMetadata),
    ((acc.map Prod.fst) ++ ts.map getDocumentId).Nodup →
    ts.foldl (fun m t => Planner.mapSet m (getDocumentId t) t) acc
      = acc ++ ts.map (fun t => (getDocumentId t, t)) := by
  induction ts with
  | nil => intro acc _; simp
  | cons t rest ih =>
    intro acc h
    have hdisj : (acc.map Prod.fst).Disjoint (getDocumentId t :: rest.map getDocumentId) :=
      (List.nodup_append.mp h).2.2
    have hk : ∀ e ∈ acc, e.fst ≠ getDocumentId t := by
      intro e he hek
      exact hdisj (by exact List.mem_map_of_mem Prod.fst he) (by simp [hek])
    rw [List.foldl_cons, mapSet_absent acc _ _ hk, ih (acc ++ [(getDocumentId t, t)]) ?_]
    · simp
    · simp only [List.map_append, List.map_cons, List.map_nil] at h ⊢
      simpa [List.append_assoc] using h

theorem buildTargetMap_eq (targets : List DocumentMetadata)
    (ht : (targets.map getDocumentId).Nodup) :
    Planner.buildTargetMap targets = targets.map (fun t => (getDocumentId t, t)) := by
  have := foldl_mapSet targets [] (by simpa using ht)
  simpa [Planner.buildTargetMap] using this

theorem mapGet_map (ts : List DocumentMetadata) (k : String) :
    Planner.mapGet (ts.map (fun t => (getDocumentId t, t))) k
      = ts.find? (fun t => getDocumentId t == k) := by
  induction ts with
  | nil => rfl
  | cons t rest ih =>
    by_cases h : getDocumentId t = k <;>
      simp [Planner.mapGet, List.find?_cons, h, ih]

theorem mapDelete_map (ts : List DocumentMetadata) (k : String) :
    Planner.mapDelete (ts.map (fun t => (getDocumentId t, t))) k
      = (ts.filter (fun t => !(getDocumentId t == k))).map
          (fun t => (getDocumentId t, t)) := by
  induction ts with
  | nil => rfl
  | cons t rest ih =>
    by_cases h : getDocumentId t = k <;>
      simp [Planner.mapDelete, List.filter_cons, h, ih] <;>
      simp [Planner.mapDelete] at ih <;> exact ih

theorem find?_filter_ne (ts : List DocumentMetadata) (k k' : String) (hkk : k' ≠ k) :
    (ts.filter (fun t => !(getDocumentId t == k))).find?
        (fun t => getDocumentId t == k')
      = ts.find? (fun t => getDocumentId t == k') := by
  induction ts with
  | nil => rfl
  | cons t rest ih =>
    have hb : (k == k') = false := beq_eq_false_iff_ne.mpr (Ne.symm hkk)
    by_cases h1 : getDocumentId t = k
    · have h2 : getDocumentId t ≠ k' := by
        rw [h1]; exact fun he => hkk he.symm
      simp [List.filter_cons, List.find?_cons, h1, h2, hb, ih]
    · by_cases h2 : getDocumentId t = k' <;>
        simp [List.filter_cons, List.find?_cons, h1, h2, hkk, ih]

theorem classify_filter_ne (ts : List DocumentMetadata) (k : String)
    (r : DocumentMetadata) (hne : getDocumentId r ≠ k) :
    Planner.classify (ts.filter (fun t => !(getDocumentId t == k))) r
      = Planner.classify ts r := by
  unfold Planner.classify
  rw [find?_filter_ne ts k (getDocumentId r) hne]

theorem planSources_eq_classify (ss : List DocumentMetadata) :
    ∀ ts : List DocumentMetadata, (ss.map getDocumentId).Nodup →
    Planner.planSources (ts.map (fun t => (getDocumentId t, t))) ss
      = ss.map (Planner.classify ts) := by
  induction ss with
  | nil => intro ts _; rfl
  | cons s rest ih =>
    intro ts hss
    have hhead : Planner.classifySource (ts.map (fun t => (getDocumentId t, t))) s
        = Planner.classify ts s := by
      unfold Planner.classifySource Planner.classify
      rw [mapGet_map]
    have hrest : (rest.map getDocumentId).Nodup := (List.nodup_cons.mp hss).2
    have hnotin : getDocumentId s ∉ rest.map getDocumentId := (List.nodup_cons.mp hss).1
    simp only [Planner.planSources, List.map_cons, hhead]
    rw [mapDelete_map, ih _ hrest]
    refine congrArg _ (List.map_congr_left ?_)
    intro r hr
    exact classify_filter_ne ts (getDocumentId s) r
      (fun he => hnotin (he ▸ List.mem_map_of_mem getDocumentId hr))

theorem remainingAfter_eq_filter (ss : List DocumentMetadata) :
    ∀ m : List (String × DocumentMetadata),
    Planner.remainingAfter m ss
      = m.filter (fun e => decide (e.fst ∉ ss.map getDocumentId)) := by
  induction ss with
  | nil =>
    intro m
    simp [Planner.remainingAfter]
  | cons s rest ih =>
    intro m
    simp only [Planner.remainingAfter]
    rw [ih (Planner.mapDelete m (getDocumentId s))]
    unfold Planner.mapDelete
    rw [List.filter_filter]
    refine List.filter_congr ?_
    intro e _
    by_cases h1 : e.fst = getDocumentId s <;>
      by_cases h2 : e.fst ∈ rest.map getDocumentId <;>
      simp [h1, h2]

theorem remaining_map_delete (ts : List DocumentMetadata) (sids : List String) :
    ((ts.map (fun t => (getDocumentId t, t))).filter
        (fun e => decide (e.fst ∉ sids))).map (fun e => Planner.mkDelete e.snd)
      = (ts.filter (fun t => decide (getDocumentId t ∉ sids))).map Planner.mkDelete := by
  induction ts with
  | nil => rfl
  | cons t rest ih =>
    by_cases h : getDocumentId t ∈ sids
    · simpa [List.filter_cons, h] using ih
    · simpa [List.filter_cons, h] using ih

/-- Characterization of Planner.plan for listings with pairwise distinct
DocumentIds on both sides: the operations are the classification of every
source document against the target list, in source order, followed by one
delete for every target document whose id no source document carries, in
target order. -/
theorem plan_operations_eq (sources targets : List DocumentMetadata)
    (hs : (sources.map getDocumentId).Nodup)
    (ht : (targets.map getDocumentId).Nodup) :
    (Planner.plan sources targets).operations
      = sources.map (Planner.classify targets)
        ++ (targets.filter
              (fun t => decide (getDocumentId t ∉ sources.map getDocumentId))).map
            Planner.mkDelete := by
  unfold Planner.plan
  simp only []
  rw [buildTargetMap_eq targets ht, planSources_eq_classify sources targets hs,
    remainingAfter_eq_filter, remaining_map_delete]

theorem classify_documentMetadata (ts : List DocumentMetadata) (s : DocumentMetadata) :
    (Planner.classify ts s).documentMetadata = s := by
  unfold Planner.classify
  cases h : ts.find? (fun t => getDocumentId t == getDocumentId s) with
  | none => rfl
  | some t =>
    by_cases hlt : t.lastModified < s.lastModified <;>
      simp [hlt, Planner.mkUpdate, Planner.mkSkip]

theorem classify_type_ne_delete (ts : List DocumentMetadata) (s : DocumentMetadata) :
    (Planner.classify ts s).type ≠ SyncOperationType.delete := by
  unfold Planner.classify
  cases h : ts.find? (fun t => getDocumentId t == getDocumentId s) with
  | none => simp [Planner.mkCreate]
  | some t =>
    by_cases hlt : t.lastModified < s.lastModified <;>
      simp [hlt, Planner.mkUpdate, Planner.mkSkip]

theorem find?_eq_some_of_nodup (ts : List DocumentMetadata)
    (ht : (ts.map getDocumentId).Nodup) (t : DocumentMetadata) (htm : t ∈ ts)
    (k : String) (hk : getDocumentId t = k) :
    ts.find? (fun t' => getDocumentId t' == k) = some t := by
  induction ts with
  | nil => cases htm
  | cons a rest ih =>
    rcases List.mem_cons.mp htm with rfl | hmem
    · simp [List.find?_cons, hk]
    · have ha : getDocumentId a ≠ k := by
        intro hak
        exact (List.nodup_cons.mp ht).1
          (by rw [hak, ← hk]; exact List.mem_map_of_mem getDocumentId hmem)
      have htl : (rest.map getDocumentId).Nodup := (List.nodup_cons.mp ht).2
      simp [List.find?_cons, ha, ih htl hmem]

theorem count_classify_map (l : List DocumentMetadata)
    (hl : (l.map getDocumentId).Nodup) (ts : List DocumentMetadata)
    (s : DocumentMetadata) (hs : s ∈ l) :
    (l.map (Planner.classify ts)).count (Planner.classify ts s) = 1 := by
  have hnd : (l.map (Planner.classify ts)).Nodup := by
    refine (List.Nodup.of_map getDocumentId hl).map_on ?_
    intro a _ b _ hab
    have := congrArg SyncOperation.documentMetadata hab
    simpa [classify_documentMetadata] using this
  exact List.count_eq_one_of_mem hnd (List.mem_map_of_mem _ hs)

theorem count_classify_map_delete_zero (l : List DocumentMetadata)
    (ts : List DocumentMetadata) (t : DocumentMetadata) :
    (l.map (Planner.classify ts)).count (Planner.mkDelete t) = 0 := by
  rw [List.count_eq_zero]
  intro hmem
  rcases List.mem_map.mp hmem with ⟨s, _, hs⟩
  exact classify_type_ne_delete ts s (by rw [hs]; rfl)

theorem count_deletes_zero (dl : List DocumentMetadata) (op : SyncOperation)
    (hop : op.type ≠ SyncOperationType.delete) :
    (dl.map Planner.mkDelete).count op = 0 := by
  rw [List.count_eq_zero]
  intro hmem
  rcases List.mem_map.mp hmem with ⟨t, _, hts⟩
  exact hop (by rw [← hts]; rfl)

theorem count_deletes_one (dl : List DocumentMetadata) (hnd : dl.Nodup)
    (t : DocumentMetadata) (htm : t ∈ dl) :
    (dl.map Planner.mkDelete).count (Planner.mkDelete t) = 1 := by
  have hinj : ∀ a ∈ dl, ∀ b ∈ dl, Planner.mkDelete a = Planner.mkDelete b → a = b := by
    intro a _ b _ hab
    exact congrArg SyncOperation.documentMetadata hab
  exact List.count_eq_one_of_mem (hnd.map_on hinj) (List.mem_map_of_mem _ htm)

/-- C1, amended to source and target listings whose DocumentIds are pairwise
distinct on each side (with duplicate ids the planner reclassifies later
duplicates, claim C10): an unmatched source document yields exactly one create
operation; a matched pair with strictly newer source yields exactly one update;
a matched pair with equal or older source yields exactly one skip and no update
operation for that document at all; a target document matched by no source id
yields exactly one delete operation. -/
theorem planner_plan_classification (sources targets : List DocumentMetadata)
    (hs : (sources.map getDocumentId).Nodup)
    (ht : (targets.map getDocumentId).Nodup) :
    (∀ s ∈ sources, (∀ t ∈ targets, getDocumentId t ≠ getDocumentId s) →
      (Planner.plan sources targets).operations.count (Planner.mkCreate s) = 1) ∧
    (∀ s ∈ sources, ∀ t ∈ targets, getDocumentId t = getDocumentId s →
      (t.lastModified < s.lastModified →
        (Planner.plan sources targets).operations.count (Planner.mkUpdate s t) = 1) ∧
      (¬ t.lastModified < s.lastModified →
        (Planner.plan sources targets).operations.count (Planner.mkSkip s) = 1 ∧
        (Planner.plan sources targets).operations.filter
          (fun op => decide (op.type = SyncOperationType.update
            ∧ op.documentMetadata = s)) = [])) ∧
    (∀ t ∈ targets, (∀ s ∈ sources, getDocumentId s ≠ getDocumentId t) →
      (Planner.plan sources targets).operations.count (Planner.mkDelete t) = 1) := by
  rw [plan_operations_eq sources targets hs ht]
  refine ⟨?_, ?_, ?_⟩
  · intro s hsm hmatch
    have hfind : targets.find? (fun t => getDocumentId t == getDocumentId s) = none := by
      rw [List.find?_eq_none]
      intro t htm
      simpa using hmatch t htm
    have hcl : Planner.classify targets s = Planner.mkCreate s := by
      unfold Planner.classify
      rw [hfind]
    rw [List.count_append, ← hcl,
      count_classify_map sources hs targets s hsm,
      hcl, count_deletes_zero _ _ (by simp [Planner.mkCreate])]
  · intro s hsm t htm hidm
    constructor
    · intro hlt
      have hfind := find?_eq_some_of_nodup targets ht t htm (getDocumentId s) hidm
      have hcl : Planner.classify targets s = Planner.mkUpdate s t := by
        simp [Planner.classify, hfind, hlt]
      rw [List.count_append, ← hcl,
        count_classify_map sources hs targets s hsm,
        hcl, count_deletes_zero _ _ (by simp [Planner.mkUpdate])]
    · intro hge
      have hfind := find?_eq_some_of_nodup targets ht t htm (getDocumentId s) hidm
      have hcl : Planner.classify targets s = Planner.mkSkip s := by
        simp [Planner.classify, hfind, hge]
      constructor
      · rw [List.count_append, ← hcl,
          count_classify_map sources hs targets s hsm,
          hcl, count_deletes_zero _ _ (by simp [Planner.mkSkip])]
      · rw [List.filter_append]
        have h1 : (sources.map (Planner.classify targets)).filter
            (fun op => decide (op.type = SyncOperationType.update
              ∧ op.documentMetadata = s)) = [] := by
          rw [List.filter_eq_nil_iff]
          intro op hopm
          rcases List.mem_map.mp hopm with ⟨s', _, hs'⟩
          simp only [decide_eq_true_eq, not_and]
          intro hty hmd
          have hss' : s' = s := by
            rw [← hs'] at hmd
            rw [← classify_documentMetadata targets s', hmd]
          rw [hss', hcl] at hs'
          rw [← hs'] at hty
          exact absurd hty (by simp [Planner.mkSkip])
        have h2 : (((targets.filter
            (fun t => decide (getDocumentId t ∉ sources.map getDocumentId))).map
              Planner.mkDelete).filter
            (fun op => decide (op.type = SyncOperationType.update
              ∧ op.documentMetadata = s))) = [] := by
          rw [List.filter_eq_nil_iff]
          intro op hopm
          rcases List.mem_map.mp hopm with ⟨t', _, ht'⟩
          simp only [decide_eq_true_eq, not_and]
          intro hty
          rw [← ht'] at hty
          exact absurd hty (by simp [Planner.mkDelete])
        rw [h1, h2]
        rfl
  · intro t htm hnos
    have htin : t ∈ targets.filter
        (fun t => decide (getDocumentId t ∉ sources.map getDocumentId)) := by
      rw [List.mem_filter]
      refine ⟨htm, ?_⟩
      simp only [decide_eq_true_eq]
      intro hmem
      rcases List.mem_map.mp hmem with ⟨s, hsm, hsid⟩
      exact hnos s hsm hsid
    have hnd : (targets.filter
        (fun t => decide (getDocumentId t ∉ sources.map getDocumentId))).Nodup :=
      (List.Nodup.of_map getDocumentId ht).filter _
    rw [List.count_append, count_classify_map_delete_zero, count_deletes_one _ hnd t htin]

/-- Witness for the amended C1 at the update scenario of the specification. -/
theorem planner_plan_classification_witness :
    (Planner.plan
        [{ providerId := "n", sourceId := "1", title := "A", lastModified := 2,
           fileExtension := none }]
        [{ providerId := "n", sourceId := "1", title := "A", lastModified := 1,
           fileExtension := none }]).operations.count
      (Planner.mkUpdate
        { providerId := "n", sourceId := "1", title := "A", lastModified := 2,
          fileExtension := none }
        { providerId := "n", sourceId := "1", title := "A", lastModified := 1,
          fileExtension := none }) = 1 :=
  ((planner_plan_classification
      [{ providerId := "n", sourceId := "1", title := "A", lastModified := 2,
         fileExtension := none }]
      [{ providerId := "n", sourceId := "1", title := "A", lastModified := 1,
         fileExtension := none }]
      (by decide) (by decide)).2.1
    _ (by decide) _ (by decide) (by decide)).1 (by decide)

/-- Counterexample to C1 as stated for arbitrary listings: two source entries
share one DocumentId that also matches a strictly older target document, but
the second source entry yields no update operation (the planner emits a create
for it instead, compare claim C10). -/
theorem planner_plan_classification_counterexample :
    (getDocumentId
        { providerId := "p", sourceId := "a", title := "B", lastModified := 2,
          fileExtension := none }
      = getDocumentId
        { providerId := "p", sourceId := "a", title := "T", lastModified := 1,
          fileExtension := none }) ∧
    (({ providerId := "p", sourceId := "a", title := "T", lastModified := 1,
        fileExtension := none } : DocumentMetadata).lastModified
      < ({ providerId := "p", sourceId := "a", title := "B", lastModified := 2,
           fileExtension := none } : DocumentMetadata).lastModified) ∧
    ((Planner.plan
        [{ providerId := "p", sourceId := "a", title := "A", lastModified := 2,
           fileExtension := none },
         { providerId := "p", sourceId := "a", title := "B", lastModified := 2,
           fileExtension := none }]
        [{ providerId := "p", sourceId := "a", title := "T", lastModified := 1,
           fileExtension := none }]).operations.filter
      (fun op => decide (op.type = SyncOperationType.update
        ∧ op.documentMetadata
            = { providerId := "p", sourceId := "a", title := "B", lastModified := 2,
                fileExtension := none }))) = [] := by
  refine ⟨rfl, by decide, ?_⟩
  decide

theorem classifySource_documentMetadata (m : List (String × DocumentMetadata))
    (s : DocumentMetadata) :
    (Planner.classifySource m s).documentMetadata = s := by
  unfold Planner.classifySource
  cases h : Planner.mapGet m (getDocumentId s) with
  | none => rfl
  | some t =>
    by_cases hlt : t.lastModified < s.lastModified <;>
      simp [hlt, Planner.mkUpdate, Planner.mkSkip]

theorem classifySource_type_ne_delete (m : List (String × DocumentMetadata))
    (s : DocumentMetadata) :
    (Planner.classifySource m s).type ≠ SyncOperationType.delete := by
  unfold Planner.classifySource
  cases h : Planner.mapGet m (getDocumentId s) with
  | none => simp [Planner.mkCreate]
  | some t =>
    by_cases hlt : t.lastModified < s.lastModified <;>
      simp [hlt, Planner.mkUpdate, Planner.mkSkip]

theorem planSources_length (ss : List DocumentMetadata) :
    ∀ m, (Planner.planSources m ss).length = ss.length := by
  induction ss with
  | nil => intro m; rfl
  | cons s rest ih => intro m; simp [Planner.planSources, ih]

theorem planSources_getElem (ss : List DocumentMetadata) :
    ∀ m i, ∀ hi : i < ss.length, ∃ op,
      (Planner.planSources m ss)[i]? = some op ∧
      op.documentMetadata = ss.get ⟨i, hi⟩ ∧
      op.type ≠ SyncOperationType.delete := by
  induction ss with
  | nil => intro m i hi; exact absurd hi (by simp)
  | cons s rest ih =>
    intro m i hi
    cases i with
    | zero =>
      exact ⟨Planner.classifySource m s, by simp [Planner.planSources],
        classifySource_documentMetadata m s, classifySource_type_ne_delete m s⟩
    | succ i' =>
      have hi' : i' < rest.length := by simpa using hi
      rcases ih (Planner.mapDelete m (getDocumentId s)) i' hi' with ⟨op, hop, hmd, hty⟩
      exact ⟨op, by simpa [Planner.planSources] using hop, hmd, hty⟩

/-- C6, amended to target listings whose DocumentIds are pairwise distinct
(with a duplicated target id the target map keeps only one entry per id, so the
delete group is not the list of all unmatched target entries): the operations
are the per-source operations in source order followed by the delete
operations; every per-source operation carries its source document and is never
a delete; the delete operations are one delete per target entry whose id
occurs in no source document, in original target order. -/
theorem planner_plan_ordering (sources targets : List DocumentMetadata)
    (ht : (targets.map getDocumentId).Nodup) :
    (Planner.plan sources targets).operations
      = Planner.planSources (Planner.buildTargetMap targets) sources
        ++ (targets.filter
            (fun t => decide (getDocumentId t ∉ sources.map getDocumentId))).map
          Planner.mkDelete ∧
    (Planner.planSources (Planner.buildTargetMap targets) sources).length
      = sources.length ∧
    (∀ i, ∀ hi : i < sources.length, ∃ op,
      (Planner.planSources (Planner.buildTargetMap targets) sources)[i]? = some op ∧
      op.documentMetadata = sources.get ⟨i, hi⟩ ∧
      op.type ≠ SyncOperationType.delete) := by
  refine ⟨?_, planSources_length sources _, fun i hi => planSources_getElem sources _ i hi⟩
  unfold Planner.plan
  simp only []
  rw [remainingAfter_eq_filter, buildTargetMap_eq targets ht, remaining_map_delete,
    ← buildTargetMap_eq targets ht]

/-- Witness for the amended C6: a plan over one unmatched target document. -/
theorem planner_plan_ordering_witness :
    (Planner.plan []
        [{ providerId := "n", sourceId := "1", title := "A", lastModified := 1,
           fileExtension := none }]).operations
      = Planner.planSources
          (Planner.buildTargetMap
            [{ providerId := "n", sourceId := "1", title := "A", lastModified := 1,
               fileExtension := none }]) []
        ++ ([{ providerId := "n", sourceId := "1", title := "A", lastModified := 1,
               fileExtension := none }].filter
            (fun t => decide (getDocumentId t
              ∉ ([] : List DocumentMetadata).map getDocumentId))).map
          Planner.mkDelete :=
  (planner_plan_ordering []
    [{ providerId := "n", sourceId := "1", title := "A", lastModified := 1,
       fileExtension := none }] (by decide)).1

/-- Counterexample to C6 as stated for arbitrary listings: two target entries
share a DocumentId and no source matches them; the claim says both unmatched
target entries yield deletes in their original order, but the plan holds a
single delete, for the value of the second entry. -/
theorem planner_plan_ordering_counterexample :
    (Planner.plan []
        [{ providerId := "p", sourceId := "x", title := "A", lastModified := 1,
           fileExtension := none },
         { providerId := "p", sourceId := "x", title := "B", lastModified := 1,
           fileExtension := none }]).operations
      = [Planner.mkDelete
          { providerId := "p", sourceId := "x", title := "B", lastModified := 1,
            fileExtension := none }] ∧
    ([{ providerId := "p", sourceId := "x", title := "A", lastModified := 1,
        fileExtension := none },
      { providerId := "p", sourceId := "x", title := "B", lastModified := 1,
        fileExtension := none }].filter
        (fun t => decide (getDocumentId t
          ∉ ([] : List DocumentMetadata).map getDocumentId))).map
      Planner.mkDelete
      = [Planner.mkDelete
          { providerId := "p", sourceId := "x", title := "A", lastModified := 1,
            fileExtension := none },
         Planner.mkDelete
          { providerId := "p", sourceId := "x", title := "B", lastModified := 1,
            fileExtension := none }] ∧
    (Planner.plan []
        [{ providerId := "p", sourceId := "x", title := "A", lastModified := 1,
           fileExtension := none },
         { providerId := "p", sourceId := "x", title := "B", lastModified := 1,
           fileExtension := none }]).operations
      ≠ ([{ providerId := "p", sourceId := "x", title := "A", lastModified := 1,
            fileExtension := none },
          { providerId := "p", sourceId := "x", title := "B", lastModified := 1,
            fileExtension := none }].filter
          (fun t => decide (getDocumentId t
            ∉ ([] : List DocumentMetadata).map getDocumentId))).map
        Planner.mkDelete := by
  refine ⟨by decide, by decide, by decide⟩

theorem mapGet_mapDelete_self (m : List (String × DocumentMetadata)) (k : String) :
    Planner.mapGet (Planner.mapDelete m k) k = none := by
  induction m with
  | nil => rfl
  | cons e rest ih =>
    by_cases h : e.fst = k <;>
      simp [Planner.mapDelete, Planner.mapGet, List.filter_cons, h] <;>
      simpa [Planner.mapDelete] using ih

theorem mapGet_mapDelete_none (m : List (String × DocumentMetadata)) (k k' : String)
    (h : Planner.mapGet m k = none) :
    Planner.mapGet (Planner.mapDelete m k') k = none := by
  induction m with
  | nil => rfl
  | cons e rest ih =>
    have he : e.fst ≠ k := by
      intro hek
      simp [Planner.mapGet, hek] at h
    have hrest : Planner.mapGet rest k = none := by
      simpa [Planner.mapGet, he] using h
    by_cases h2 : e.fst = k' <;>
      simp [Planner.mapDelete, Planner.mapGet, List.filter_cons, h2, he] <;>
      simpa [Planner.mapDelete] using ih hrest

theorem planSources_absent (ss : List DocumentMetadata) :
    ∀ m k, Planner.mapGet m k = none →
    ∀ j, ∀ hj : j < ss.length, getDocumentId (ss.get ⟨j, hj⟩) = k →
    (Planner.planSources m ss)[j]? = some (Planner.mkCreate (ss.get ⟨j, hj⟩)) := by
  induction ss with
  | nil => intro m k _ j hj; exact absurd hj (by simp)
  | cons s rest ih =>
    intro m k hget j hj hid
    cases j with
    | zero =>
      have hcl : Planner.classifySource m s = Planner.mkCreate s := by
        unfold Planner.classifySource
        have : getDocumentId s = k := hid
        rw [this, hget]
      simp [Planner.planSources, hcl]
    | succ j' =>
      have hj' : j' < rest.length := by simpa using hj
      have hm' : Planner.mapGet (Planner.mapDelete m (getDocumentId s)) k = none :=
        mapGet_mapDelete_none m k (getDocumentId s) hget
      have := ih (Planner.mapDelete m (getDocumentId s)) k hm' j' hj' (by simpa using hid)
      simpa [Planner.planSources] using this

theorem planSources_dup (ss : List DocumentMetadata) :
    ∀ m i j, ∀ hij : i < j, ∀ hj : j < ss.length,
    getDocumentId (ss.get ⟨i, Nat.lt_trans hij hj⟩) = getDocumentId (ss.get ⟨j, hj⟩) →
    (Planner.planSources m ss)[j]? = some (Planner.mkCreate (ss.get ⟨j, hj⟩)) := by
  induction ss with
  | nil => intro m i j _ hj; exact absurd hj (by simp)
  | cons s rest ih =>
    intro m i j hij hj hid
    cases j with
    | zero => exact absurd hij (by omega)
    | succ j' =>
      have hj' : j' < rest.length := by simpa using hj
      cases i with
      | zero =>
        have hid0 : getDocumentId (rest.get ⟨j', hj'⟩) = getDocumentId s := by
          simpa using hid.symm
        have hm' : Planner.mapGet (Planner.mapDelete m (getDocumentId s))
            (getDocumentId s) = none := mapGet_mapDelete_self m (getDocumentId s)
        have := planSources_absent rest (Planner.mapDelete m (getDocumentId s))
          (getDocumentId s) hm' j' hj' hid0
        simpa [Planner.planSources] using this
      | succ i' =>
        have hij' : i' < j' := by omega
        have := ih (Planner.mapDelete m (getDocumentId s)) i' j' hij' hj'
          (by simpa using hid)
        simpa [Planner.planSources] using this

/-- C10: with two source entries sharing one DocumentId that also occurs in the
target listing, the planner still emits one operation per source entry, in
source order, but every later occurrence of the duplicated id is classified as
create: the matched target entry was removed from the target index when the
first occurrence was reconciled, so only the first occurrence can be an update
or a skip. -/
theorem planner_duplicate_source_ids (sources targets : List DocumentMetadata)
    (i j : Nat) (hij : i < j) (hj : j < sources.length)
    (hid : getDocumentId (sources.get ⟨i, Nat.lt_trans hij hj⟩)
      = getDocumentId (sources.get ⟨j, hj⟩))
    (_hmatch : ∃ t ∈ targets,
      getDocumentId t = getDocumentId (sources.get ⟨i, Nat.lt_trans hij hj⟩)) :
    (Planner.planSources (Planner.buildTargetMap targets) sources).length
      = sources.length ∧
    (∀ k, ∀ hk : k < sources.length, ∃ op,
      (Planner.plan sources targets).operations[k]? = some op ∧
      op.documentMetadata = sources.get ⟨k, hk⟩) ∧
    (Planner.plan sources targets).operations[j]?
      = some (Planner.mkCreate (sources.get ⟨j, hj⟩)) := by
  have hlen := planSources_length sources (Planner.buildTargetMap targets)
  have hops : (Planner.plan sources targets).operations
      = Planner.planSources (Planner.buildTargetMap targets) sources
        ++ (Planner.remainingAfter (Planner.buildTargetMap targets) sources).map
          (fun e => Planner.mkDelete e.snd) := rfl
  refine ⟨hlen, ?_, ?_⟩
  · intro k hk
    rcases planSources_getElem sources (Planner.buildTargetMap targets) k hk with
      ⟨op, hop, hmd, _⟩
    refine ⟨op, ?_, hmd⟩
    rw [hops, List.getElem?_append, if_pos (by omega)]
    exact hop
  · have hdup := planSources_dup sources (Planner.buildTargetMap targets) i j hij hj hid
    rw [hops, List.getElem?_append, if_pos (by omega)]
    exact hdup

/-- Witness for C10: two sources with the same id as a strictly older target;
the second source entry becomes a create. -/
theorem planner_duplicate_source_ids_witness :
    (Planner.plan
        [{ providerId := "p", sourceId := "a", title := "A", lastModified := 2,
           fileExtension := none },
         { providerId := "p", sourceId := "a", title := "B", lastModified := 2,
           fileExtension := none }]
        [{ providerId := "p", sourceId := "a", title := "T", lastModified := 1,
           fileExtension := none }]).operations[1]?
      = some (Planner.mkCreate
          { providerId := "p", sourceId := "a", title := "B", lastModified := 2,
            fileExtension := none }) :=
  (planner_duplicate_source_ids
    [{ providerId := "p", sourceId := "a", title := "A", lastModified := 2,
       fileExtension := none },
     { providerId := "p", sourceId := "a", title := "B", lastModified := 2,
       fileExtension := none }]
    [{ providerId := "p", sourceId := "a", title := "T", lastModified := 1,
       fileExtension := none }]
    0 1 (by omega) (by decide) (by decide)
    ⟨{ providerId := "p", sourceId := "a", title := "T", lastModified := 1,
       fileExtension := none }, by decide, by decide⟩).2.2

theorem runBatch_errors (env : Reconciler.ConnectorEnv) (providers : List String)
    (dryRun : Bool) (ty : SyncOperationType) (batch : List SyncOperation) :
    (Reconciler.runBatch env providers dryRun ty batch).2
      = Reconciler.groupFailures env providers dryRun ty batch := by
  induction batch with
  | nil => rfl
  | cons op rest ih =>
    simp only [Reconciler.runBatch, Reconciler.groupFailures, List.filterMap_cons]
    cases h : (Reconciler.processOperation env providers dryRun op ty).2 <;>
      simp [h, ih, Reconciler.groupFailures]

theorem groupFailures_append (env : Reconciler.ConnectorEnv) (providers : List String)
    (dryRun : Bool) (ty : SyncOperationType) (l1 l2 : List SyncOperation) :
    Reconciler.groupFailures env providers dryRun ty (l1 ++ l2)
      = Reconciler.groupFailures env providers dryRun ty l1
        ++ Reconciler.groupFailures env providers dryRun ty l2 := by
  simp [Reconciler.groupFailures, List.filterMap_append]

theorem processOperationsBatch_errors (env : Reconciler.ConnectorEnv)
    (providers : List String) (dryRun : Bool) (ty : SyncOperationType)
    (ops : List SyncOperation) :
    (Reconciler.processOperationsBatch env providers dryRun ty ops).2
      = Reconciler.groupFailures env providers dryRun ty ops := by
  suffices H : ∀ n (ops : List SyncOperation), ops.length ≤ n →
      (Reconciler.processOperationsBatch env providers dryRun ty ops).2
        = Reconciler.groupFailures env providers dryRun ty ops from
    H ops.length ops le_rfl
  intro n
  induction n with
  | zero =>
    intro ops h
    rcases ops with _ | ⟨op, rest⟩
    · simp [Reconciler.processOperationsBatch, Reconciler.groupFailures]
    · simp at h
  | succ n ih =>
    intro ops h
    rcases ops with _ | ⟨op, rest0⟩
    · simp [Reconciler.processOperationsBatch, Reconciler.groupFailures]
    · have hlen : ((op :: rest0).drop Reconciler.batchSize).length ≤ n := by
        simp [Reconciler.batchSize] at h ⊢
        omega
      simp only [Reconciler.processOperationsBatch]
      rw [runBatch_errors, ih _ hlen, ← groupFailures_append, List.take_append_drop]

theorem processOperation_dryRun (env : Reconciler.ConnectorEnv)
    (providers : List String) (op : SyncOperation) (ty : SyncOperationType) :
    Reconciler.processOperation env providers true op ty
      = ([Reconciler.Ev.attempt ty (getDocumentId op.documentMetadata) op.reason],
          Except.ok ()) := by
  simp [Reconciler.processOperation]

theorem processOperation_events_head (env : Reconciler.ConnectorEnv)
    (providers : List String) (dryRun : Bool) (op : SyncOperation)
    (ty : SyncOperationType) :
    ∃ tl, (Reconciler.processOperation env providers dryRun op ty).1
      = Reconciler.Ev.attempt ty (getDocumentId op.documentMetadata) op.reason :: tl := by
  simp only [Reconciler.processOperation]
  repeat' split
  all_goals exact ⟨_, rfl⟩

theorem processOperation_attempt_ty (env : Reconciler.ConnectorEnv)
    (providers : List String) (dryRun : Bool) (op : SyncOperation)
    (ty : SyncOperationType) :
    ∀ e ∈ (Reconciler.processOperation env providers dryRun op ty).1,
      ∀ ty' d r, e = Reconciler.Ev.attempt ty' d r → ty' = ty := by
  simp only [Reconciler.processOperation]
  repeat' split
  all_goals intro e he ty' d r hety
  all_goals subst hety
  all_goals simp at he
  all_goals tauto

theorem runBatch_mem (env : Reconciler.ConnectorEnv) (providers : List String)
    (dryRun : Bool) (ty : SyncOperationType) (batch : List SyncOperation)
    (e : Reconciler.Ev) :
    e ∈ (Reconciler.runBatch env providers dryRun ty batch).1 →
    ∃ op ∈ batch, e ∈ (Reconciler.processOperation env providers dryRun op ty).1 := by
  induction batch with
  | nil => intro h; simp [Reconciler.runBatch] at h
  | cons op rest ih =>
    intro h
    simp only [Reconciler.runBatch] at h
    rcases List.mem_append.mp h with h1 | h2
    · exact ⟨op, by simp, h1⟩
    · rcases ih h2 with ⟨op', hm, hmm⟩
      exact ⟨op', by simp [hm], hmm⟩

theorem runBatch_attempt_mem (env : Reconciler.ConnectorEnv) (providers : List String)
    (dryRun : Bool) (ty : SyncOperationType) (batch : List SyncOperation)
    (op : SyncOperation) (hm : op ∈ batch) :
    Reconciler.Ev.attempt ty (getDocumentId op.documentMetadata) op.reason
      ∈ (Reconciler.runBatch env providers dryRun ty batch).1 := by
  induction batch with
  | nil => cases hm
  | cons op0 rest ih =>
    simp only [Reconciler.runBatch]
    rcases List.mem_cons.mp hm with rfl | hmem
    · rcases processOperation_events_head env providers dryRun op ty with ⟨tl, htl⟩
      exact List.mem_append_left _ (by rw [htl]; simp)
    · exact List.mem_append_right _ (ih hmem)

theorem processOperationsBatch_mem (env : Reconciler.ConnectorEnv)
    (providers : List String) (dryRun : Bool) (ty : SyncOperationType)
    (ops : List SyncOperation) (e : Reconciler.Ev) :
    e ∈ (Reconciler.processOperationsBatch env providers dryRun ty ops).1 →
    e = Reconciler.Ev.delay Reconciler.batchDelayMs ∨
    ∃ op ∈ ops, e ∈ (Reconciler.processOperation env providers dryRun op ty).1 := by
  suffices H : ∀ n (ops : List SyncOperation), ops.length ≤ n →
      e ∈ (Reconciler.processOperationsBatch env providers dryRun ty ops).1 →
      e = Reconciler.Ev.delay Reconciler.batchDelayMs ∨
      ∃ op ∈ ops, e ∈ (Reconciler.processOperation env providers dryRun op ty).1 from
    H ops.length ops le_rfl
  intro n
  induction n with
  | zero =>
    intro ops hl h
    rcases ops with _ | ⟨op, rest⟩
    · simp [Reconciler.processOperationsBatch] at h
    · simp at hl
  | succ n ih =>
    intro ops hl h
    rcases ops with _ | ⟨op0, rest0⟩
    · simp [Reconciler.processOperationsBatch] at h
    · have hlen : ((op0 :: rest0).drop Reconciler.batchSize).length ≤ n := by
        simp [Reconciler.batchSize] at hl ⊢
        omega
      simp only [Reconciler.processOperationsBatch] at h
      rcases List.mem_append.mp h with h12 | h3
      · rcases List.mem_append.mp h12 with h1 | h2
        · rcases runBatch_mem env providers dryRun ty _ e h1 with ⟨op', hm, hmm⟩
          refine Or.inr ⟨op', ?_, hmm⟩
          rw [← List.take_append_drop Reconciler.batchSize (op0 :: rest0)]
          exact List.mem_append_left _ hm
        · left
          rcases hd : ((op0 :: rest0).drop Reconciler.batchSize).isEmpty with _ | _ <;>
            rw [hd] at h2 <;> simpa using h2
      · rcases ih _ hlen h3 with hdel | ⟨op', hm, hmm⟩
        · exact Or.inl hdel
        · refine Or.inr ⟨op', ?_, hmm⟩
          rw [← List.take_append_drop Reconciler.batchSize (op0 :: rest0)]
          exact List.mem_append_right _ hm

theorem processOperationsBatch_attempt_mem (env : Reconciler.ConnectorEnv)
    (providers : List String) (dryRun : Bool) (ty : SyncOperationType)
    (ops : List SyncOperation) (op : SyncOperation) (hm : op ∈ ops) :
    Reconciler.Ev.attempt ty (getDocumentId op.documentMetadata) op.reason
      ∈ (Reconciler.processOperationsBatch env providers dryRun ty ops).1 := by
  suffices H : ∀ n (ops : List SyncOperation), ops.length ≤ n → op ∈ ops →
      Reconciler.Ev.attempt ty (getDocumentId op.documentMetadata) op.reason
        ∈ (Reconciler.processOperationsBatch env providers dryRun ty ops).1 from
    H ops.length ops le_rfl hm
  intro n
  induction n with
  | zero =>
    intro ops hl hmem
    rcases ops with _ | ⟨op0, rest⟩
    · cases hmem
    · simp at hl
  | succ n ih =>
    intro ops hl hmem
    rcases ops with _ | ⟨op0, rest0⟩
    · cases hmem
    · have hlen : ((op0 :: rest0).drop Reconciler.batchSize).length ≤ n := by
        simp [Reconciler.batchSize] at hl ⊢
        omega
      simp only [Reconciler.processOperationsBatch]
      have hsplit := List.take_append_drop Reconciler.batchSize (op0 :: rest0)
      rw [← hsplit] at hmem
      rcases List.mem_append.mp hmem with h1 | h2
      · exact List.mem_append_left _
          (List.mem_append_left _
            (runBatch_attempt_mem env providers dryRun ty _ op h1))
      · exact List.mem_append_right _ (ih _ hlen h2)

theorem groupFailures_dryRun (env : Reconciler.ConnectorEnv) (providers : List String)
    (ty : SyncOperationType) (ops : List SyncOperation) :
    Reconciler.groupFailures env providers true ty ops = [] := by
  induction ops with
  | nil => rfl
  | cons op rest ih =>
    simp only [Reconciler.groupFailures] at ih ⊢
    simp [List.filterMap_cons, processOperation_dryRun, ih]

theorem execute_mem (setup : Reconciler.Setup) (env : Reconciler.ConnectorEnv)
    (plan : SyncPlan) (e : Reconciler.Ev)
    (he : e ∈ (Reconciler.execute setup env plan).1) :
    e = Reconciler.Ev.tempDirCreated ∨ e = Reconciler.Ev.cleanup ∨
    (∃ d r, e = Reconciler.Ev.logSkip d r) ∨
    e = Reconciler.Ev.delay Reconciler.batchDelayMs ∨
    ∃ providers, Reconciler.buildProviders setup = Except.ok providers ∧
      ∃ op ∈ plan.operations, op.type ≠ SyncOperationType.skip ∧
        e ∈ (Reconciler.processOperation env providers setup.dryRun op op.type).1 := by
  unfold Reconciler.execute at he
  cases hbp : Reconciler.buildProviders setup with
  | error msg =>
    rw [hbp] at he
    simp at he
    rcases he with h | h
    · exact Or.inl h
    · exact Or.inr (Or.inl h)
  | ok providers =>
    rw [hbp] at he
    simp only [] at he
    rcases List.mem_cons.mp he with rfl | he2
    · exact Or.inl rfl
    · have he3 : e ∈
          ((plan.operations.filter
              (fun op => decide (op.type = SyncOperationType.skip))).map
            (fun op => Reconciler.Ev.logSkip (getDocumentId op.documentMetadata)
              op.reason)
            ++ (Reconciler.processOperationsBatch env providers setup.dryRun .create
                (plan.operations.filter
                  (fun op => decide (op.type = SyncOperationType.create)))).1
            ++ (Reconciler.processOperationsBatch env providers setup.dryRun .update
                (plan.operations.filter
                  (fun op => decide (op.type = SyncOperationType.update)))).1
            ++ (Reconciler.processOperationsBatch env providers setup.dryRun .delete
                (plan.operations.filter
                  (fun op => decide (op.type = SyncOperationType.delete)))).1)
            ++ [Reconciler.Ev.cleanup] := by
        revert he2
        split <;> intro he2 <;> exact he2
      rcases List.mem_append.mp he3 with he4 | hcl
      · rcases List.mem_append.mp he4 with he5 | hdel
        · rcases List.mem_append.mp he5 with he6 | hupd
          · rcases List.mem_append.mp he6 with hskip | hcrt
            · rcases List.mem_map.mp hskip with ⟨op, _, hop⟩
              exact Or.inr (Or.inr (Or.inl ⟨_, _, hop.symm⟩))
            · rcases processOperationsBatch_mem env providers setup.dryRun .create _ e
                hcrt with hd | ⟨op, hm, hmm⟩
              · exact Or.inr (Or.inr (Or.inr (Or.inl hd)))
              · have := List.mem_filter.mp hm
                have hty : op.type = SyncOperationType.create := by
                  simpa using this.2
                refine Or.inr (Or.inr (Or.inr (Or.inr
                  ⟨providers, rfl, op, this.1, by simp [hty], ?_⟩)))
                rw [hty]
                exact hmm
          · rcases processOperationsBatch_mem env providers setup.dryRun .update _ e
              hupd with hd | ⟨op, hm, hmm⟩
            · exact Or.inr (Or.inr (Or.inr (Or.inl hd)))
            · have := List.mem_filter.mp hm
              have hty : op.type = SyncOperationType.update := by
                simpa using this.2
              refine Or.inr (Or.inr (Or.inr (Or.inr
                ⟨providers, rfl, op, this.1, by simp [hty], ?_⟩)))
              rw [hty]
              exact hmm
        · rcases processOperationsBatch_mem env providers setup.dryRun .delete _ e
            hdel with hd | ⟨op, hm, hmm⟩
          · exact Or.inr (Or.inr (Or.inr (Or.inl hd)))
          · have := List.mem_filter.mp hm
            have hty : op.type = SyncOperationType.delete := by
              simpa using this.2
            refine Or.inr (Or.inr (Or.inr (Or.inr
              ⟨providers, rfl, op, this.1, by simp [hty], ?_⟩)))
            rw [hty]
            exact hmm
      · simp at hcl
        exact Or.inr (Or.inl hcl)

theorem execute_events_eq (setup : Reconciler.Setup) (env : Reconciler.ConnectorEnv)
    (plan : SyncPlan) (providers : List String)
    (hbp : Reconciler.buildProviders setup = Except.ok providers) :
    (Reconciler.execute setup env plan).1
      = Reconciler.Ev.tempDirCreated
          :: ((plan.operations.filter
                (fun op => decide (op.type = SyncOperationType.skip))).map
              (fun op => Reconciler.Ev.logSkip (getDocumentId op.documentMetadata)
                op.reason)
            ++ (Reconciler.processOperationsBatch env providers setup.dryRun .create
                (plan.operations.filter
                  (fun op => decide (op.type = SyncOperationType.create)))).1
            ++ (Reconciler.processOperationsBatch env providers setup.dryRun .update
                (plan.operations.filter
                  (fun op => decide (op.type = SyncOperationType.update)))).1
            ++ (Reconciler.processOperationsBatch env providers setup.dryRun .delete
                (plan.operations.filter
                  (fun op => decide (op.type = SyncOperationType.delete)))).1)
          ++ [Reconciler.Ev.cleanup] := by
  unfold Reconciler.execute
  rw [hbp]
  simp only []
  split <;> rfl

theorem execute_result (setup : Reconciler.Setup) (env : Reconciler.ConnectorEnv)
    (plan : SyncPlan) (providers : List String)
    (hbp : Reconciler.buildProviders setup = Except.ok providers) :
    (Reconciler.execute setup env plan).2
      = if Reconciler.specFailures env providers setup.dryRun plan = []
        then Except.ok ()
        else Except.error (Reconciler.aggregateMessage
          (Reconciler.specFailures env providers setup.dryRun plan)) := by
  unfold Reconciler.execute
  rw [hbp]
  simp only [Reconciler.specFailures]
  rw [processOperationsBatch_errors, processOperationsBatch_errors,
    processOperationsBatch_errors]
  split
  next hempty =>
    rw [if_pos (by simpa using hempty)]
  next hempty =>
    rw [if_neg (by simpa using hempty)]

theorem execute_attempt_mem (setup : Reconciler.Setup) (env : Reconciler.ConnectorEnv)
    (plan : SyncPlan) (providers : List String)
    (hbp : Reconciler.buildProviders setup = Except.ok providers)
    (op : SyncOperation) (hm : op ∈ plan.operations)
    (hty : op.type ≠ SyncOperationType.skip) :
    Reconciler.Ev.attempt op.type (getDocumentId op.documentMetadata) op.reason
      ∈ (Reconciler.execute setup env plan).1 := by
  rw [execute_events_eq setup env plan providers hbp]
  refine List.mem_cons_of_mem _ (List.mem_append_left _ ?_)
  cases hcase : op.type with
  | skip => exact absurd hcase hty
  | create =>
    refine List.mem_append_left _ (List.mem_append_left _
      (List.mem_append_right _ ?_))
    have hmf : op ∈ plan.operations.filter
        (fun op => decide (op.type = SyncOperationType.create)) :=
      List.mem_filter.mpr ⟨hm, by simp [hcase]⟩
    have := processOperationsBatch_attempt_mem env providers setup.dryRun .create
      _ op hmf
    exact this
  | update =>
    refine List.mem_append_left _ (List.mem_append_right _ ?_)
    have hmf : op ∈ plan.operations.filter
        (fun op => decide (op.type = SyncOperationType.update)) :=
      List.mem_filter.mpr ⟨hm, by simp [hcase]⟩
    have := processOperationsBatch_attempt_mem env providers setup.dryRun .update
      _ op hmf
    exact this
  | delete =>
    refine List.mem_append_right _ ?_
    have hmf : op ∈ plan.operations.filter
        (fun op => decide (op.type = SyncOperationType.delete)) :=
      List.mem_filter.mpr ⟨hm, by simp [hcase]⟩
    have := processOperationsBatch_attempt_mem env providers setup.dryRun .delete
      _ op hmf
    exact this

theorem infix_joinLines (ls : List String) (l : String) (hm : l ∈ ls) :
    l.data <:+: (Reconciler.joinLines ls).data := by
  induction ls with
  | nil => cases hm
  | cons l0 rest ih =>
    rcases List.mem_cons.mp hm with rfl | hmem
    · cases rest with
      | nil => exact List.infix_rfl
      | cons l1 rest' =>
        refine ⟨[], ('\n') :: (Reconciler.joinLines (l1 :: rest')).data, ?_⟩
        simp [Reconciler.joinLines, String.data_append]
    · cases rest with
      | nil => cases hmem
      | cons l1 rest' =>
        rcases ih hmem with ⟨s, t, hst⟩
        refine ⟨l0.data ++ ('\n') :: s, t, ?_⟩
        have hdata : (Reconciler.joinLines (l0 :: l1 :: rest')).data
            = l0.data ++ ('\n') :: (Reconciler.joinLines (l1 :: rest')).data := by
          simp [Reconciler.joinLines, String.data_append]
        rw [hdata, ← hst]
        simp

theorem failureLine_infix_aggregate (errs : List (SyncOperation × String))
    (p : SyncOperation × String) (hm : p ∈ errs) :
    (Reconciler.failureLine p).data
      <:+: (Reconciler.aggregateMessage errs).data := by
  have h1 : Reconciler.failureLine p ∈ errs.map Reconciler.failureLine :=
    List.mem_map_of_mem _ hm
  rcases infix_joinLines _ _ h1 with ⟨s, t, hst⟩
  refine ⟨(("Reconciliation partially failed with ") ++ toString errs.length
      ++ (" errors:\n")).data ++ s, t, ?_⟩
  have hdata : (Reconciler.aggregateMessage errs).data
      = (("Reconciliation partially failed with ") ++ toString errs.length
          ++ (" errors:\n")).data
        ++ (Reconciler.joinLines (errs.map Reconciler.failureLine)).data := by
    simp [Reconciler.aggregateMessage, String.data_append]
  rw [hdata, ← hst]
  simp

/-- C2, amended: provided every provider kind named by the source provider
configs has a registered constructor (a missing constructor throws out of the
run before any operation is attempted, see the counterexample), a non-dry-run
execute attempts every non-skip operation of the plan whatever the other
operations do, records each connector exception as a per-operation failure,
succeeds exactly when no operation failed, and otherwise fails with the single
aggregate error whose text enumerates type, DocumentId and message of every
failed operation. -/
theorem reconciler_error_aggregation (setup : Reconciler.Setup)
    (env : Reconciler.ConnectorEnv) (plan : SyncPlan) (providers : List String)
    (hbp : Reconciler.buildProviders setup = Except.ok providers)
    (hdry : setup.dryRun = false) :
    (∀ op ∈ plan.operations, op.type ≠ SyncOperationType.skip →
      Reconciler.Ev.attempt op.type (getDocumentId op.documentMetadata) op.reason
        ∈ (Reconciler.execute setup env plan).1) ∧
    (Reconciler.specFailures env providers false plan = [] →
      (Reconciler.execute setup env plan).2 = Except.ok ()) ∧
    (Reconciler.specFailures env providers false plan ≠ [] →
      (Reconciler.execute setup env plan).2
        = Except.error (Reconciler.aggregateMessage
            (Reconciler.specFailures env providers false plan))) ∧
    (∀ p ∈ Reconciler.specFailures env providers false plan,
      (Reconciler.failureLine p).data
        <:+: (Reconciler.aggregateMessage
            (Reconciler.specFailures env providers false plan)).data) := by
  refine ⟨fun op hm hty => execute_attempt_mem setup env plan providers hbp op hm hty,
    ?_, ?_, fun p hp => failureLine_infix_aggregate _ p hp⟩
  · intro hsf
    rw [execute_result setup env plan providers hbp, hdry, if_pos hsf]
  · intro hsf
    rw [execute_result setup env plan providers hbp, hdry, if_neg hsf]

/-- Witness for the amended C2: a run whose single create succeeds reports
success. -/
theorem reconciler_error_aggregation_witness :
    (Reconciler.execute
        { sourceProviderConfigs := [("p1", "notion")], registeredKinds := ["notion"],
          dryRun := false }
        { download := fun _ => Except.ok ("/tmp/f"),
          createDoc := fun _ _ => Except.ok (),
          updateDoc := fun _ _ => Except.ok (),
          deleteDoc := fun _ => Except.ok () }
        { operations := [Planner.mkCreate
            { providerId := "p1", sourceId := "a", title := "T", lastModified := 1,
              fileExtension := none }],
          summary := ⟨1, 1, 0, 0, 0⟩ }).2 = Except.ok () :=
  (reconciler_error_aggregation
    { sourceProviderConfigs := [("p1", "notion")], registeredKinds := ["notion"],
      dryRun := false }
    { download := fun _ => Except.ok ("/tmp/f"),
      createDoc := fun _ _ => Except.ok (),
      updateDoc := fun _ _ => Except.ok (),
      deleteDoc := fun _ => Except.ok () }
    { operations := [Planner.mkCreate
        { providerId := "p1", sourceId := "a", title := "T", lastModified := 1,
          fileExtension := none }],
      summary := ⟨1, 1, 0, 0, 0⟩ }
    ["p1"] rfl rfl).2.1 (by decide)

/-- Counterexample to C2 as stated: a Reconciler whose config names a provider
kind with no registered constructor fails a non-dry run on an empty plan, with
no operation failed and no aggregate error text. -/
theorem reconciler_error_aggregation_counterexample :
    (Reconciler.execute
        { sourceProviderConfigs := [("p1", "dify")], registeredKinds := [],
          dryRun := false }
        { download := fun _ => Except.ok ("/tmp/f"),
          createDoc := fun _ _ => Except.ok (),
          updateDoc := fun _ _ => Except.ok (),
          deleteDoc := fun _ => Except.ok () }
        { operations := [], summary := ⟨0, 0, 0, 0, 0⟩ }).2
      = Except.error ("Provider constructor not found: dify") ∧
    ({ operations := [], summary := ⟨0, 0, 0, 0, 0⟩ } : SyncPlan).operations = [] :=
  ⟨rfl, rfl⟩

/-- C8, amended: with every configured provider kind registered (a missing
constructor throws even in dry-run, see the counterexample), a dry run logs
every operation with its type and reason, performs no connector call at all,
writes no staged file, and always succeeds; the temp staging directory is
still created and removed around the run. -/
theorem reconciler_dryRun_behavior (setup : Reconciler.Setup)
    (env : Reconciler.ConnectorEnv) (plan : SyncPlan) (providers : List String)
    (hbp : Reconciler.buildProviders setup = Except.ok providers)
    (hdry : setup.dryRun = true) :
    (Reconciler.execute setup env plan).2 = Except.ok () ∧
    (∀ e ∈ (Reconciler.execute setup env plan).1,
      Reconciler.isConnectorCall e = false) ∧
    (∀ p, Reconciler.Ev.stagedFile p ∉ (Reconciler.execute setup env plan).1) ∧
    (∀ op ∈ plan.operations, op.type ≠ SyncOperationType.skip →
      Reconciler.Ev.attempt op.type (getDocumentId op.documentMetadata) op.reason
        ∈ (Reconciler.execute setup env plan).1) ∧
    (∀ op ∈ plan.operations, op.type = SyncOperationType.skip →
      Reconciler.Ev.logSkip (getDocumentId op.documentMetadata) op.reason
        ∈ (Reconciler.execute setup env plan).1) := by
  refine ⟨?_, ?_, ?_,
    fun op hm hty => execute_attempt_mem setup env plan providers hbp op hm hty, ?_⟩
  · rw [execute_result setup env plan providers hbp, hdry]
    simp [Reconciler.specFailures, groupFailures_dryRun]
  · intro e he
    rcases execute_mem setup env plan e he with h | h | ⟨d, r, h⟩ | h |
      ⟨prov, _, op, _, _, hmm⟩
    · rw [h]; rfl
    · rw [h]; rfl
    · rw [h]; rfl
    · rw [h]; rfl
    · rw [hdry, processOperation_dryRun] at hmm
      simp at hmm
      rw [hmm]; rfl
  · intro p hmem
    rcases execute_mem setup env plan _ hmem with h | h | ⟨d, r, h⟩ | h |
      ⟨prov, _, op, _, _, hmm⟩
    · cases h
    · cases h
    · cases h
    · cases h
    · rw [hdry, processOperation_dryRun] at hmm
      simp at hmm
  · intro op hm hty
    rw [execute_events_eq setup env plan providers hbp]
    refine List.mem_cons_of_mem _ (List.mem_append_left _
      (List.mem_append_left _ (List.mem_append_left _ (List.mem_append_left _ ?_))))
    exact List.mem_map_of_mem _ (List.mem_filter.mpr ⟨hm, by simp [hty]⟩)

/-- Witness for the amended C8: a dry run over a two-operation plan succeeds. -/
theorem reconciler_dryRun_behavior_witness :
    (Reconciler.execute
        { sourceProviderConfigs := [("p1", "notion")], registeredKinds := ["notion"],
          dryRun := true }
        { download := fun _ => Except.error ("network down"),
          createDoc := fun _ _ => Except.error ("api down"),
          updateDoc := fun _ _ => Except.error ("api down"),
          deleteDoc := fun _ => Except.error ("api down") }
        { operations := [Planner.mkCreate
            { providerId := "p1", sourceId := "a", title := "T", lastModified := 1,
              fileExtension := none },
            Planner.mkDelete
            { providerId := "p1", sourceId := "b", title := "U", lastModified := 1,
              fileExtension := none }],
          summary := ⟨2, 1, 0, 1, 0⟩ }).2 = Except.ok () :=
  (reconciler_dryRun_behavior
    { sourceProviderConfigs := [("p1", "notion")], registeredKinds := ["notion"],
      dryRun := true }
    { download := fun _ => Except.error ("network down"),
      createDoc := fun _ _ => Except.error ("api down"),
      updateDoc := fun _ _ => Except.error ("api down"),
      deleteDoc := fun _ => Except.error ("api down") }
    { operations := [Planner.mkCreate
        { providerId := "p1", sourceId := "a", title := "T", lastModified := 1,
          fileExtension := none },
        Planner.mkDelete
        { providerId := "p1", sourceId := "b", title := "U", lastModified := 1,
          fileExtension := none }],
      summary := ⟨2, 1, 0, 1, 0⟩ }
    ["p1"] rfl rfl).1

/-- Counterexample to C8 as stated: dry-run does not always succeed, because a
config naming an unregistered provider kind throws before the dry-run check. -/
theorem reconciler_dryRun_behavior_counterexample :
    (Reconciler.execute
        { sourceProviderConfigs := [("p1", "notion")], registeredKinds := [],
          dryRun := true }
        { download := fun _ => Except.ok ("/tmp/f"),
          createDoc := fun _ _ => Except.ok (),
          updateDoc := fun _ _ => Except.ok (),
          deleteDoc := fun _ => Except.ok () }
        { operations := [], summary := ⟨0, 0, 0, 0, 0⟩ }).2
      = Except.error ("Provider constructor not found: notion") :=
  rfl

theorem chunked_join (ops : List SyncOperation) :
    (Reconciler.chunked ops).flatten = ops := by
  suffices H : ∀ n (ops : List SyncOperation), ops.length ≤ n →
      (Reconciler.chunked ops).flatten = ops from H ops.length ops le_rfl
  intro n
  induction n with
  | zero =>
    intro ops hl
    rcases ops with _ | ⟨op, rest⟩
    · simp [Reconciler.chunked]
    · simp at hl
  | succ n ih =>
    intro ops hl
    rcases ops with _ | ⟨op0, rest0⟩
    · simp [Reconciler.chunked]
    · have hlen : ((op0 :: rest0).drop Reconciler.batchSize).length ≤ n := by
        simp [Reconciler.batchSize] at hl ⊢
        omega
      simp only [Reconciler.chunked, List.flatten_cons]
      rw [ih _ hlen, List.take_append_drop]

theorem chunked_eq_nil_iff (ops : List SyncOperation) :
    Reconciler.chunked ops = [] ↔ ops = [] := by
  rcases ops with _ | ⟨op, rest⟩
  · simp [Reconciler.chunked]
  · simp [Reconciler.chunked]

theorem chunked_mem_size (ops : List SyncOperation) :
    ∀ c ∈ Reconciler.chunked ops, c ≠ [] ∧ c.length ≤ Reconciler.batchSize := by
  suffices H : ∀ n (ops : List SyncOperation), ops.length ≤ n →
      ∀ c ∈ Reconciler.chunked ops, c ≠ [] ∧ c.length ≤ Reconciler.batchSize from
    H ops.length ops le_rfl
  intro n
  induction n with
  | zero =>
    intro ops hl c hc
    rcases ops with _ | ⟨op, rest⟩
    · simp [Reconciler.chunked] at hc
    · simp at hl
  | succ n ih =>
    intro ops hl c hc
    rcases ops with _ | ⟨op0, rest0⟩
    · simp [Reconciler.chunked] at hc
    · have hlen : ((op0 :: rest0).drop Reconciler.batchSize).length ≤ n := by
        simp [Reconciler.batchSize] at hl ⊢
        omega
      simp only [Reconciler.chunked] at hc
      rcases List.mem_cons.mp hc with rfl | hmem
      · constructor
        · simp [Reconciler.batchSize]
        · simp [Reconciler.batchSize]
      · exact ih _ hlen c hmem

theorem chunked_full (ops : List SyncOperation) :
    ∀ i c, i + 1 < (Reconciler.chunked ops).length →
      (Reconciler.chunked ops)[i]? = some c → c.length = Reconciler.batchSize := by
  suffices H : ∀ n (ops : List SyncOperation), ops.length ≤ n →
      ∀ i c, i + 1 < (Reconciler.chunked ops).length →
      (Reconciler.chunked ops)[i]? = some c → c.length = Reconciler.batchSize from
    H ops.length ops le_rfl
  intro n
  induction n with
  | zero =>
    intro ops hl i c hi hc
    rcases ops with _ | ⟨op, rest⟩
    · simp [Reconciler.chunked] at hi
    · simp at hl
  | succ n ih =>
    intro ops hl i c hi hc
    rcases ops with _ | ⟨op0, rest0⟩
    · simp [Reconciler.chunked] at hi
    · have hlen : ((op0 :: rest0).drop Reconciler.batchSize).length ≤ n := by
        simp [Reconciler.batchSize] at hl ⊢
        omega
      simp only [Reconciler.chunked] at hi hc
      cases i with
      | zero =>
        have hne : Reconciler.chunked ((op0 :: rest0).drop Reconciler.batchSize)
            ≠ [] := by
          intro hnil
          rw [hnil] at hi
          simp at hi
        have hdrop : (op0 :: rest0).drop Reconciler.batchSize ≠ [] := by
          intro hnil
          exact hne ((chunked_eq_nil_iff _).mpr hnil)
        have hlong : Reconciler.batchSize ≤ (op0 :: rest0).length := by
          by_contra hlt
          exact hdrop (List.drop_eq_nil_of_le (by omega))
        have hc0 : (op0 :: rest0).take Reconciler.batchSize = c := by
          simpa using hc
        rw [← hc0, List.length_take]
        omega
      | succ i' =>
        simp only [List.getElem?_cons_succ] at hc
        have hi' : i' + 1
            < (Reconciler.chunked ((op0 :: rest0).drop Reconciler.batchSize)).length := by
          simpa using hi
        exact ih _ hlen i' c hi' hc

theorem processOperationsBatch_events_interDelay (env : Reconciler.ConnectorEnv)
    (providers : List String) (dryRun : Bool) (ty : SyncOperationType)
    (ops : List SyncOperation) :
    (Reconciler.processOperationsBatch env providers dryRun ty ops).1
      = Reconciler.interDelay ((Reconciler.chunked ops).map
          (fun c => (Reconciler.runBatch env providers dryRun ty c).1)) := by
  suffices H : ∀ n (ops : List SyncOperation), ops.length ≤ n →
      (Reconciler.processOperationsBatch env providers dryRun ty ops).1
        = Reconciler.interDelay ((Reconciler.chunked ops).map
            (fun c => (Reconciler.runBatch env providers dryRun ty c).1)) from
    H ops.length ops le_rfl
  intro n
  induction n with
  | zero =>
    intro ops hl
    rcases ops with _ | ⟨op, rest⟩
    · simp [Reconciler.processOperationsBatch, Reconciler.chunked,
        Reconciler.interDelay]
    · simp at hl
  | succ n ih =>
    intro ops hl
    rcases ops with _ | ⟨op0, rest0⟩
    · simp [Reconciler.processOperationsBatch, Reconciler.chunked,
        Reconciler.interDelay]
    · have hlen : ((op0 :: rest0).drop Reconciler.batchSize).length ≤ n := by
        simp [Reconciler.batchSize] at hl ⊢
        omega
      simp only [Reconciler.processOperationsBatch, Reconciler.chunked,
        List.map_cons]
      rcases hd : (op0 :: rest0).drop Reconciler.batchSize with _ | ⟨d0, ds⟩
      · simp [Reconciler.processOperationsBatch, Reconciler.chunked,
          Reconciler.interDelay]
      · rw [hd] at hlen
        rcases hch : Reconciler.chunked (d0 :: ds) with _ | ⟨c0, cs⟩
        · exact absurd ((chunked_eq_nil_iff _).mp hch) (by simp)
        · rw [ih _ hlen, hch]
          simp [Reconciler.interDelay, List.map_cons]

/-- C9 (with the configured provider kinds registered, so that the run reaches
the processing stage): operations are partitioned by type; skip operations
contribute only a log event and no attempt event carries the skip type; each
mutation group is processed as the sequence of its batchSize slices in order,
joined by exactly one delay of batchDelayMs between consecutive slices; the
slices concatenate back to the group, none is empty, each has at most
batchSize operations and all but the last have exactly batchSize. -/
theorem reconciler_batching (setup : Reconciler.Setup)
    (env : Reconciler.ConnectorEnv) (plan : SyncPlan) (providers : List String)
    (hbp : Reconciler.buildProviders setup = Except.ok providers) :
    ((Reconciler.execute setup env plan).1
      = Reconciler.Ev.tempDirCreated
          :: ((plan.operations.filter
                (fun op => decide (op.type = SyncOperationType.skip))).map
              (fun op => Reconciler.Ev.logSkip (getDocumentId op.documentMetadata)
                op.reason)
            ++ Reconciler.interDelay ((Reconciler.chunked (plan.operations.filter
                  (fun op => decide (op.type = SyncOperationType.create)))).map
                (fun c => (Reconciler.runBatch env providers setup.dryRun .create c).1))
            ++ Reconciler.interDelay ((Reconciler.chunked (plan.operations.filter
                  (fun op => decide (op.type = SyncOperationType.update)))).map
                (fun c => (Reconciler.runBatch env providers setup.dryRun .update c).1))
            ++ Reconciler.interDelay ((Reconciler.chunked (plan.operations.filter
                  (fun op => decide (op.type = SyncOperationType.delete)))).map
                (fun c => (Reconciler.runBatch env providers setup.dryRun .delete c).1)))
          ++ [Reconciler.Ev.cleanup]) ∧
    (∀ ops : List SyncOperation, (Reconciler.chunked ops).flatten = ops) ∧
    (∀ ops : List SyncOperation, ∀ c ∈ Reconciler.chunked ops,
      c ≠ [] ∧ c.length ≤ Reconciler.batchSize) ∧
    (∀ ops : List SyncOperation, ∀ i c, i + 1 < (Reconciler.chunked ops).length →
      (Reconciler.chunked ops)[i]? = some c → c.length = Reconciler.batchSize) ∧
    (∀ ty d r, Reconciler.Ev.attempt ty d r ∈ (Reconciler.execute setup env plan).1 →
      ty ≠ SyncOperationType.skip) := by
  refine ⟨?_, chunked_join, chunked_mem_size, chunked_full, ?_⟩
  · rw [execute_events_eq setup env plan providers hbp,
      processOperationsBatch_events_interDelay,
      processOperationsBatch_events_interDelay,
      processOperationsBatch_events_interDelay]
  · intro ty d r hmem
    rcases execute_mem setup env plan _ hmem with h | h | ⟨d', r', h⟩ | h |
      ⟨prov, _, op, _, hty, hmm⟩
    · cases h
    · cases h
    · cases h
    · cases h
    · have := processOperation_attempt_ty env prov setup.dryRun op op.type _ hmm
        ty d r rfl
      rw [this]
      exact hty

/-- Witness for C9: the slices of a concrete seven-operation group concatenate
back to the group, through the batching theorem at a concrete Reconciler. -/
theorem reconciler_batching_witness :
    (Reconciler.chunked [Planner.mkDelete
        { providerId := "p1", sourceId := "a", title := "A", lastModified := 1,
          fileExtension := none }]).flatten
      = [Planner.mkDelete
          { providerId := "p1", sourceId := "a", title := "A", lastModified := 1,
            fileExtension := none }] :=
  (reconciler_batching
    { sourceProviderConfigs := [("p1", "notion")], registeredKinds := ["notion"],
      dryRun := false }
    { download := fun _ => Except.ok ("/tmp/f"),
      createDoc := fun _ _ => Except.ok (),
      updateDoc := fun _ _ => Except.ok (),
      deleteDoc := fun _ => Except.ok () }
    { operations := [], summary := ⟨0, 0, 0, 0, 0⟩ }
    ["p1"] rfl).2.1
    [Planner.mkDelete
      { providerId := "p1", sourceId := "a", title := "A", lastModified := 1,
        fileExtension := none }]

/-- C7: the staging lifecycle brackets every run: the first event is the
creation of the temp staging directory, before any operation processing; the
last event is its recursive removal; after applying the run's events to any
starting state the staging directory no longer exists and holds no files;
and this holds on both exit paths, success and error. -/
theorem reconciler_staging_lifecycle (setup : Reconciler.Setup)
    (env : Reconciler.ConnectorEnv) (plan : SyncPlan) (fs0 : StagingFS) :
    (Reconciler.execute setup env plan).1.head?
      = some Reconciler.Ev.tempDirCreated ∧
    (Reconciler.execute setup env plan).1.getLast? = some Reconciler.Ev.cleanup ∧
    applyEvents fs0 (Reconciler.execute setup env plan).1
      = { tempDirExists := false, files := [] } ∧
    ((Reconciler.execute setup env plan).2 = Except.ok ()
      ∨ ∃ msg, (Reconciler.execute setup env plan).2 = Except.error msg) := by
  have hshape : ∃ mid, (Reconciler.execute setup env plan).1
      = Reconciler.Ev.tempDirCreated :: mid ++ [Reconciler.Ev.cleanup] := ⟨_, rfl⟩
  rcases hshape with ⟨mid, hmid⟩
  refine ⟨?_, ?_, ?_, ?_⟩
  · rw [hmid]; rfl
  · rw [hmid, show Reconciler.Ev.tempDirCreated :: mid ++ [Reconciler.Ev.cleanup]
        = (Reconciler.Ev.tempDirCreated :: mid) ++ [Reconciler.Ev.cleanup] from rfl,
      List.getLast?_concat]
  · rw [hmid, show Reconciler.Ev.tempDirCreated :: mid ++ [Reconciler.Ev.cleanup]
        = (Reconciler.Ev.tempDirCreated :: mid) ++ [Reconciler.Ev.cleanup] from rfl]
    unfold applyEvents
    rw [List.foldl_append]
    rfl
  · rcases hres : (Reconciler.execute setup env plan).2 with msg | u
    · exact Or.inr ⟨msg, rfl⟩
    · exact Or.inl rfl

theorem runTargets_ok_iff (ts : List ETLEngine.TargetSpec) :
    ∀ (src : List DocumentMetadata) (i : Nat),
    ((ETLEngine.runTargets src ts i).2 = Except.ok ()
      ↔ ∀ t ∈ ts, ETLEngine.stepOk src t = true) := by
  induction ts with
  | nil => intro src i; simp [ETLEngine.runTargets]
  | cons t rest ih =>
    intro src i
    simp only [ETLEngine.runTargets]
    cases hf : t.fetchMeta with
    | error e => simp [ETLEngine.stepOk, hf]
    | ok m =>
      cases hx : t.execResult (ETLEngine.createSyncPlan src m) with
      | error e => simp [ETLEngine.stepOk, hf, hx]
      | ok u => simp [ETLEngine.stepOk, hf, hx, ih src (i + 1)]

theorem runTargets_fetched_mem (ts : List ETLEngine.TargetSpec) :
    ∀ (src : List DocumentMetadata) (i n : Nat),
    ETLEngine.EngEv.targetFetched n ∈ (ETLEngine.runTargets src ts i).1 →
    i ≤ n ∧ n - i < ts.length ∧
      ∀ j, j < n - i → ∀ hj2 : j < ts.length,
        ETLEngine.stepOk src (ts.get ⟨j, hj2⟩) = true := by
  induction ts with
  | nil => intro src i n h; simp [ETLEngine.runTargets] at h
  | cons t rest ih =>
    intro src i n h
    simp only [ETLEngine.runTargets] at h
    cases hf : t.fetchMeta with
    | error e => rw [hf] at h; simp at h
    | ok m =>
      rw [hf] at h
      simp only [] at h
      cases hx : t.execResult (ETLEngine.createSyncPlan src m) with
      | error e =>
        rw [hx] at h
        simp at h
        refine ⟨by omega, by simp [h], ?_⟩
        intro j hj hj2
        rw [h] at hj
        omega
      | ok u =>
        rw [hx] at h
        simp at h
        rcases h with heq | hmem
        · refine ⟨by omega, by simp [heq], ?_⟩
          intro j hj hj2
          rw [heq] at hj
          omega
        · rcases ih src (i + 1) n hmem with ⟨hle, hlt, hsteps⟩
          refine ⟨by omega, by simp; omega, ?_⟩
          intro j hj hj2
          cases j with
          | zero => simp [ETLEngine.stepOk, hf, hx]
          | succ j' =>
            have hj' : j' < n - (i + 1) := by omega
            have hj2' : j' < rest.length := by simp at hj2; omega
            have := hsteps j' hj' hj2'
            simpa using this

/-- C3, amended: the run fails exactly when the source metadata fetch, some
target metadata fetch, or some Reconciler execution fails; targets are
processed strictly sequentially with the first failure propagating out of the
loop, so a target after a failing one is never fetched, planned or executed
(the per-target isolation stated by the claim does not hold on the code, see
the counterexample). -/
theorem engine_run_failure (sourceFetch : Except String (List DocumentMetadata))
    (targets : List ETLEngine.TargetSpec) :
    ((ETLEngine.run sourceFetch targets).2 = Except.ok ()
      ↔ ∃ src, sourceFetch = Except.ok src ∧
          ∀ t ∈ targets, ETLEngine.stepOk src t = true) ∧
    (∀ (src : List DocumentMetadata) (k : Nat), ∀ hk : k < targets.length,
      sourceFetch = Except.ok src →
      ETLEngine.stepOk src (targets.get ⟨k, hk⟩) = false →
      ∀ n, k < n →
        ETLEngine.EngEv.targetFetched n ∉ (ETLEngine.run sourceFetch targets).1) := by
  constructor
  · cases hsf : sourceFetch with
    | error e => simp [ETLEngine.run]
    | ok src =>
      simp [ETLEngine.run, runTargets_ok_iff targets src 0]
  · intro src k hk hsf hfail n hkn hmem
    rw [hsf] at hmem
    simp only [ETLEngine.run] at hmem
    rcases List.mem_cons.mp hmem with habs | hmem2
    · cases habs
    · rcases runTargets_fetched_mem targets src 0 n hmem2 with ⟨_, hlt, hsteps⟩
      have := hsteps k (by omega) hk
      rw [this] at hfail
      cases hfail

/-- Witness for the amended C3: with a first target whose Reconciler run fails
and a second healthy target, the second target is never fetched. -/
theorem engine_run_failure_witness :
    ETLEngine.EngEv.targetFetched 1
      ∉ (ETLEngine.run (Except.ok [])
          [{ fetchMeta := Except.ok [], execResult := fun _ => Except.error ("boom") },
           { fetchMeta := Except.ok [], execResult := fun _ => Except.ok () }]).1 :=
  (engine_run_failure (Except.ok [])
    [{ fetchMeta := Except.ok [], execResult := fun _ => Except.error ("boom") },
     { fetchMeta := Except.ok [], execResult := fun _ => Except.ok () }]).2
    [] 0 (by decide) rfl rfl 1 (by decide)

/-- Counterexample to C3 as stated: first, a failing Reconciler run on target 0
aborts the engine before target 1 is fetched, against the claim that every
configured target is fetched, planned and executed regardless of earlier
failures; second, a run whose only target fails during the metadata fetch
fails although no Reconciler run failed, against the stated equivalence. -/
theorem engine_run_failure_counterexample :
    (ETLEngine.run (Except.ok [])
        [{ fetchMeta := Except.ok [], execResult := fun _ => Except.error ("boom") },
         { fetchMeta := Except.ok [], execResult := fun _ => Except.ok () }]).2
      = Except.error ("boom") ∧
    ETLEngine.EngEv.targetFetched 1
      ∉ (ETLEngine.run (Except.ok [])
          [{ fetchMeta := Except.ok [], execResult := fun _ => Except.error ("boom") },
           { fetchMeta := Except.ok [], execResult := fun _ => Except.ok () }]).1 ∧
    (ETLEngine.run (Except.ok [])
        [{ fetchMeta := Except.error ("netdown"),
           execResult := fun _ => Except.ok () }]).2
      = Except.error ("netdown") :=
  ⟨rfl, by decide, rfl⟩
